import Mathlib

/-!
# CHIP-8 virtual machine: state model and instruction step

A shallow embedding of `chip-8/src/chip8.h` and `chip-8/src/chip8.c`.

* C arrays are total functions from `Nat`; every array access of the C code
  is accompanied by an explicit bounds test, and a step that would index an
  array outside its bounds returns `none` (undefined behaviour in C).
* `uint8_t` and `uint16_t` values are natural numbers; every C operation that
  can leave the range of its type is followed by an explicit `% 256` or
  `% 65536`.  The predicate `WF` states the range of every field.
* `rand()` is a parameter of the step function.
-/

namespace Chip8

/-! ## Constants of `chip8.h` -/

@[reducible] def DISPLAY_WIDTH : Nat := 64
@[reducible] def DISPLAY_HEIGHT : Nat := 32
@[reducible] def MEMORY_SIZE : Nat := 4096
@[reducible] def PC_START : Nat := 0x200
@[reducible] def PC_END : Nat := 0xFFF
@[reducible] def FONT_HEIGHT : Nat := 5
@[reducible] def FONT_START : Nat := 0x50
@[reducible] def FONT_END : Nat := 0xA0
@[reducible] def FONT_MEMORY_SIZE : Nat := FONT_END - FONT_START

/-! ## Data model -/

/-- The SDL handles of `sdl_t`; a pointer is a number and `0` is `NULL`. -/
structure sdl_t where
  window : Nat
  renderer : Nat
  sound : Nat

/-- The run mode, `state_t`. -/
inductive state_t where
  | RUNNING
  | PAUSED
  | QUIT
  deriving DecidableEq, Repr

/-- The machine, `chip8_t`. -/
structure chip8_t where
  pc : Nat
  opcode : Nat
  idx : Nat
  sp : Nat
  V : Nat → Nat
  stack : Nat → Nat
  memory : Nat → Nat
  display : Nat → Bool
  keypad : Nat → Bool
  delay_timer : Nat
  sound_timer : Nat
  state : state_t
  sdl : sdl_t
  draw : Bool

/-- The assignment `a[i] = v`. -/
def store {α : Type} (a : Nat → α) (i : Nat) (v : α) : Nat → α :=
  fun k => if k = i then v else a k

/-- Every field is in the range of its C type. -/
def WF (c : chip8_t) : Prop :=
  c.pc < 65536 ∧ c.opcode < 65536 ∧ c.idx < 65536 ∧ c.sp < 65536 ∧
  (∀ i, i < 16 → c.V i < 256) ∧ (∀ i, i < 16 → c.stack i < 65536) ∧
  (∀ a, a < MEMORY_SIZE → c.memory a < 256) ∧
  c.delay_timer < 256 ∧ c.sound_timer < 256

/-! ## Initialisation -/

/-- The font table `chip8_fontset`. -/
def chip8_fontset : List Nat := [
  0xF0, 0x90, 0x90, 0x90, 0xF0,
  0x20, 0x60, 0x20, 0x20, 0x70,
  0xF0, 0x10, 0xF0, 0x80, 0xF0,
  0xF0, 0x10, 0xF0, 0x10, 0xF0,
  0x90, 0x90, 0xF0, 0x10, 0x10,
  0xF0, 0x80, 0xF0, 0x10, 0xF0,
  0xF0, 0x80, 0xF0, 0x90, 0xF0,
  0xF0, 0x10, 0x20, 0x40, 0x40,
  0xF0, 0x90, 0xF0, 0x90, 0xF0,
  0xF0, 0x90, 0xF0, 0x10, 0xF0,
  0xF0, 0x90, 0xF0, 0x90, 0x90,
  0xE0, 0x90, 0xE0, 0x90, 0xE0,
  0xF0, 0x80, 0x80, 0x80, 0xF0,
  0xE0, 0x90, 0x90, 0x90, 0xE0,
  0xF0, 0x80, 0xF0, 0x80, 0xF0,
  0xF0, 0x80, 0xF0, 0x80, 0x80]

/-- The loop `for (i = 0; i < FONT_MEMORY_SIZE; i++) memory[FONT_START + i] = chip8_fontset[i]`. -/
def load_fontset (memory : Nat → Nat) : Nat → Nat :=
  (List.range FONT_MEMORY_SIZE).foldl
    (fun m i => store m (FONT_START + i) (chip8_fontset.getD i 0)) memory

/-- The function `initialize` of `chip8.c`.  The two timers are not assigned
by the C code and keep their prior contents. -/
def chip8_init (chip8 : chip8_t) : chip8_t :=
  { chip8 with
    pc := 0x200
    opcode := 0x0
    idx := 0x0
    sp := 0x0
    V := fun _ => 0
    stack := fun _ => 0
    memory := load_fontset (fun _ => 0)
    keypad := fun _ => false
    display := fun _ => false
    sdl := { window := 0, renderer := 0, sound := 0 }
    state := state_t.RUNNING
    draw := false }

/-! ## The sprite loop of `DXYN` -/

/-- One iteration of the inner loop of `DXYN`: column `j` of sprite row `i`.
The loop writes only `V[0xF]` and `display`, which are threaded through. -/
def draw_pixel (X Y i sprite_row : Nat) (st : (Nat → Nat) × (Nat → Bool)) (j : Nat) :
    Option ((Nat → Nat) × (Nat → Bool)) :=
  let current_bit_position := 1 <<< (7 - j)
  let current_bit := sprite_row &&& current_bit_position
  let sprite_pixel : Bool := current_bit != 0
  let display_x := (st.1 X + j) % 256
  let display_y := (st.1 Y + i) % 256
  let display_pixel_index := DISPLAY_WIDTH * display_y + display_x
  if display_pixel_index < DISPLAY_WIDTH * DISPLAY_HEIGHT then
    let display_pixel := st.2 display_pixel_index
    let V1 := if (display_pixel && sprite_pixel) = true then store st.1 0xF 1 else st.1
    some (V1, store st.2 display_pixel_index (xor display_pixel sprite_pixel))
  else none

/-- The inner loop `for (j = 0; j <= 7; j++)` of `DXYN`. -/
def draw_row (X Y i sprite_row : Nat) (st : (Nat → Nat) × (Nat → Bool)) :
    Option ((Nat → Nat) × (Nat → Bool)) :=
  (List.range 8).foldlM (draw_pixel X Y i sprite_row) st

/-- The outer loop `for (i = 0; i < N; i++)` of `DXYN`. -/
def draw_sprite (memory : Nat → Nat) (idx X Y N : Nat) (st : (Nat → Nat) × (Nat → Bool)) :
    Option ((Nat → Nat) × (Nat → Bool)) :=
  (List.range N).foldlM
    (fun st i =>
      if idx + i < MEMORY_SIZE then draw_row X Y i (memory (idx + i)) st else none) st

/-! ## The loops of `FX0A`, `FX55` and `FX65` -/

/-- The keypad scan of `FX0A`; the state is `(V, key_pressed)`. -/
def scan_keypad (keypad : Nat → Bool) (X : Nat) (V : Nat → Nat) : (Nat → Nat) × Bool :=
  (List.range 16).foldl
    (fun st i => if keypad i = true then (store st.1 X (keypad i).toNat, true) else st)
    (V, false)

/-- The loop `for (i = 0; i <= X; i++) memory[idx + i] = V[i]` of `FX55`. -/
def store_registers (V : Nat → Nat) (idx X : Nat) (memory : Nat → Nat) : Option (Nat → Nat) :=
  (List.range (X + 1)).foldlM
    (fun m i => if idx + i < MEMORY_SIZE then some (store m (idx + i) (V i)) else none) memory

/-- The loop `for (i = 0; i <= X; i++) V[i] = memory[idx + i]` of `FX65`. -/
def load_registers (memory : Nat → Nat) (idx X : Nat) (V : Nat → Nat) : Option (Nat → Nat) :=
  (List.range (X + 1)).foldlM
    (fun v i => if idx + i < MEMORY_SIZE then some (store v i (memory (idx + i))) else none) V

/-! ## Decode and execute -/

/-- The `switch` of `emulate_cycle`, run on the state in which the opcode is
latched and the program counter already advanced. -/
def execute (rand : Nat) (chip8 : chip8_t) : Option chip8_t :=
  let opcode := chip8.opcode
  let X := (opcode &&& 0x0F00) >>> 8
  let Y := (opcode &&& 0x00F0) >>> 4
  let N := opcode &&& 0x000F
  let NN := opcode &&& 0x00FF
  let NNN := opcode &&& 0x0FFF
  let V := chip8.V
  if opcode &&& 0xF000 = 0x0000 then
    if opcode &&& 0x000F = 0x0000 then
      some { chip8 with display := fun _ => false }
    else if opcode &&& 0x000F = 0x000E then
      let sp := (chip8.sp + 65535) % 65536
      if sp < 16 then some { chip8 with sp := sp, pc := chip8.stack sp } else none
    else some chip8
  else if opcode &&& 0xF000 = 0x1000 then
    some { chip8 with pc := NNN }
  else if opcode &&& 0xF000 = 0x2000 then
    if chip8.sp < 16 then
      some { chip8 with
        stack := store chip8.stack chip8.sp chip8.pc
        sp := (chip8.sp + 1) % 65536
        pc := NNN }
    else none
  else if opcode &&& 0xF000 = 0x3000 then
    if V X = NN then some { chip8 with pc := (chip8.pc + 2) % 65536 } else some chip8
  else if opcode &&& 0xF000 = 0x4000 then
    if V X ≠ NN then some { chip8 with pc := (chip8.pc + 2) % 65536 } else some chip8
  else if opcode &&& 0xF000 = 0x5000 then
    if V X = V Y then some { chip8 with pc := (chip8.pc + 2) % 65536 } else some chip8
  else if opcode &&& 0xF000 = 0x6000 then
    some { chip8 with V := store V X (NN % 256) }
  else if opcode &&& 0xF000 = 0x7000 then
    some { chip8 with V := store V X ((V X + NN) % 256) }
  else if opcode &&& 0xF000 = 0x8000 then
    if opcode &&& 0x000F = 0x0000 then
      some { chip8 with V := store V X (V Y) }
    else if opcode &&& 0x000F = 0x0001 then
      some { chip8 with V := store V X (V X ||| V Y) }
    else if opcode &&& 0x000F = 0x0002 then
      some { chip8 with V := store V X (V X &&& V Y) }
    else if opcode &&& 0x000F = 0x0003 then
      some { chip8 with V := store V X (V X ^^^ V Y) }
    else if opcode &&& 0x000F = 0x0004 then
      let V1 := store V 0xF (if V X + V Y > 0xFF then 1 else 0)
      some { chip8 with V := store V1 X ((V1 X + V1 Y) % 256) }
    else if opcode &&& 0x000F = 0x0005 then
      let V1 := store V 0xF (if V X < V Y then 1 else 0)
      some { chip8 with V := store V1 X ((V1 X + 256 - V1 Y) % 256) }
    else if opcode &&& 0x000F = 0x0006 then
      let V1 := store V 0xF (V X &&& 0x0001)
      some { chip8 with V := store V1 X (V1 X >>> 1) }
    else if opcode &&& 0x000F = 0x0007 then
      let V1 := store V 0xF (if V Y < V X then 1 else 0)
      some { chip8 with V := store V1 X ((V1 Y + 256 - V1 X) % 256) }
    else if opcode &&& 0x000F = 0x000E then
      let V1 := store V 0xF ((V X &&& 0x80) >>> 7)
      some { chip8 with V := store V1 X ((V1 X <<< 1) % 256) }
    else some chip8
  else if opcode &&& 0xF000 = 0x9000 then
    if V X ≠ V Y then some { chip8 with pc := (chip8.pc + 2) % 65536 } else some chip8
  else if opcode &&& 0xF000 = 0xA000 then
    some { chip8 with idx := NNN }
  else if opcode &&& 0xF000 = 0xB000 then
    some { chip8 with pc := (V 0x0 + NNN) % 65536 }
  else if opcode &&& 0xF000 = 0xC000 then
    let random_num := rand % 256
    some { chip8 with V := store V X (random_num &&& NN) }
  else if opcode &&& 0xF000 = 0xD000 then
    match draw_sprite chip8.memory chip8.idx X Y N (store V 0xF 0, chip8.display) with
    | some st => some { chip8 with V := st.1, display := st.2, draw := true }
    | none => none
  else if opcode &&& 0xF000 = 0xE000 then
    if opcode &&& 0x00F0 = 0x0090 then
      if V X < 16 then
        if chip8.keypad (V X) = true then some { chip8 with pc := (chip8.pc + 2) % 65536 }
        else some chip8
      else none
    else if opcode &&& 0x00F0 = 0x00A0 then
      if V X < 16 then
        if chip8.keypad (V X) = false then some { chip8 with pc := (chip8.pc + 2) % 65536 }
        else some chip8
      else none
    else some chip8
  else if opcode &&& 0xF000 = 0xF000 then
    if opcode &&& 0x00FF = 0x0007 then
      some { chip8 with V := store V X chip8.delay_timer }
    else if opcode &&& 0x00FF = 0x000A then
      let st := scan_keypad chip8.keypad X V
      if st.2 = false then some { chip8 with V := st.1, pc := (chip8.pc + 65534) % 65536 }
      else some { chip8 with V := st.1 }
    else if opcode &&& 0x00FF = 0x0015 then
      some { chip8 with delay_timer := V X }
    else if opcode &&& 0x00FF = 0x0018 then
      some { chip8 with sound_timer := V X }
    else if opcode &&& 0x00FF = 0x001E then
      some { chip8 with idx := (chip8.idx + V X) % 65536 }
    else if opcode &&& 0x00FF = 0x0029 then
      some { chip8 with idx := (FONT_START + V X * FONT_HEIGHT) % 65536 }
    else if opcode &&& 0x00FF = 0x0033 then
      let n := V X
      if chip8.idx + 2 < MEMORY_SIZE then
        let m1 := store chip8.memory (chip8.idx + 2) (n % 10)
        let n1 := n / 10
        let m2 := store m1 (chip8.idx + 1) (n1 % 10)
        some { chip8 with memory := store m2 chip8.idx (n1 / 10) }
      else none
    else if opcode &&& 0x00FF = 0x0055 then
      match store_registers V chip8.idx X chip8.memory with
      | some m => some { chip8 with memory := m }
      | none => none
    else if opcode &&& 0x00FF = 0x0065 then
      match load_registers chip8.memory chip8.idx X V with
      | some v => some { chip8 with V := v }
      | none => none
    else some chip8
  else some chip8

/-- The function `emulate_cycle` of `chip8.c`: fetch, advance the program
counter, decode and execute.  `rand` is the value `rand()` returns if the
instruction calls it. -/
def emulate_cycle (rand : Nat) (chip8 : chip8_t) : Option chip8_t :=
  if chip8.pc + 1 < MEMORY_SIZE then
    let opcode := (chip8.memory chip8.pc <<< 8 ||| chip8.memory (chip8.pc + 1)) % 65536
    execute rand { chip8 with opcode := opcode, pc := (chip8.pc + 2) % 65536 }
  else none

/-- The function `update_timers` of `chip8.c` (the calls into the mixer are
outside the machine state). -/
def update_timers (chip8 : chip8_t) : chip8_t :=
  let c1 := if chip8.delay_timer > 0 then
      { chip8 with delay_timer := chip8.delay_timer - 1 } else chip8
  if c1.sound_timer > 0 then { c1 with sound_timer := c1.sound_timer - 1 } else c1

/-! ## Vocabulary of the sprite draw -/

/-- The flat display index of column `j` of sprite row `i` for a sprite whose
corner is at `(x, y)`. -/
def pixel_index (x y i j : Nat) : Nat := DISPLAY_WIDTH * (y + i) + (x + j)

/-- Column `j` (counted from the most significant bit) of sprite row `i`. -/
def sprite_bit (memory : Nat → Nat) (idx i j : Nat) : Bool :=
  (memory (idx + i)).testBit (7 - j)

/-- The display cell at column `x` of line `y`. -/
def cell (display : Nat → Bool) (x y : Nat) : Bool := display (DISPLAY_WIDTH * y + x)

/-- The state `(V1, d1)` reached from `(V, d)` once exactly the sprite pixels
in `S` have been drawn. -/
structure DrawInv (memory : Nat → Nat) (idx x y : Nat) (S : Nat → Nat → Prop)
    (V : Nat → Nat) (d : Nat → Bool) (V1 : Nat → Nat) (d1 : Nat → Bool) : Prop where
  regs : ∀ r, r ≠ 0xF → V1 r = V r
  hit : (∃ i j, S i j ∧ sprite_bit memory idx i j = true ∧ d (pixel_index x y i j) = true) →
    V1 0xF = 1
  miss : (¬ ∃ i j, S i j ∧ sprite_bit memory idx i j = true ∧ d (pixel_index x y i j) = true) →
    V1 0xF = V 0xF
  drawn : ∀ i j, S i j →
    d1 (pixel_index x y i j) = xor (d (pixel_index x y i j)) (sprite_bit memory idx i j)
  frame : ∀ p, (∀ i j, S i j → p ≠ pixel_index x y i j) → d1 p = d p

/-! ## Concrete machines -/

/-- A machine as `main` prepares it: zeroed, initialised, the ROM bytes
copied to `memory[PC_START ..]` as `read_rom` does. -/
def boot (rom : List Nat) : chip8_t :=
  let c := chip8_init
    { pc := 0, opcode := 0, idx := 0, sp := 0, V := fun _ => 0, stack := fun _ => 0,
      memory := fun _ => 0, display := fun _ => false, keypad := fun _ => false,
      delay_timer := 0, sound_timer := 0, state := state_t.RUNNING,
      sdl := { window := 0, renderer := 0, sound := 0 }, draw := false }
  { c with memory := fun a =>
      if PC_START ≤ a ∧ a < PC_START + rom.length then rom.getD (a - PC_START) 0
      else c.memory a }

/-- The machine of the ADD scenario: `8124` at 0x200, V1 = 0xFF, V2 = 0x01. -/
def add_demo : chip8_t :=
  { boot [0x81, 0x24] with V := store (store (fun _ => 0) 1 0xFF) 2 0x01 }

/-- The machine of the SUBTRACT scenario: `8125` at 0x200, V1 = 0x01, V2 = 0x02. -/
def sub_demo : chip8_t :=
  { boot [0x81, 0x25] with V := store (store (fun _ => 0) 1 0x01) 2 0x02 }

/-- The machine `8126` at 0x200 with V1 = 0x85 and V2 = 0x33. -/
def shr_demo : chip8_t :=
  { boot [0x81, 0x26] with V := store (store (fun _ => 0) 1 0x85) 2 0x33 }

/-- The machine `812E` at 0x200 with V1 = 0x85 and V2 = 0x33. -/
def shl_demo : chip8_t :=
  { boot [0x81, 0x2E] with V := store (store (fun _ => 0) 1 0x85) 2 0x33 }

/-- The machine `8127` at 0x200 with V1 = 0x01 and V2 = 0x02. -/
def rsub_demo : chip8_t :=
  { boot [0x81, 0x27] with V := store (store (fun _ => 0) 1 0x01) 2 0x02 }

/-- A machine about to draw the glyph `0` (five rows at 0x50) at (3, 4) with
`D125`, twice, on a display whose cell (3, 4) is already on. -/
def draw_demo : chip8_t :=
  { boot [0xD1, 0x25, 0xD1, 0x25] with
    V := store (store (fun _ => 0) 1 3) 2 4
    idx := 0x50
    display := store (fun _ => false) (DISPLAY_WIDTH * 4 + 3) true }

/-- A machine about to run `F133` with V1 = `v` and idx = 0x300. -/
def bcd_demo (v : Nat) : chip8_t :=
  { boot [0xF1, 0x33] with V := store (fun _ => 0) 1 v, idx := 0x300 }

/-- A machine whose program is `2204` at 0x200 (call 0x204), then two unused
bytes, then `00EE` at 0x204; three calls are already on the stack. -/
def call_demo : chip8_t :=
  { boot [0x22, 0x04, 0x00, 0x00, 0x00, 0xEE] with sp := 3 }

/-- A machine about to run `F30A` with no key pressed. -/
def await_demo : chip8_t :=
  { boot [0xF3, 0x0A] with V := store (fun _ => 0) 3 0x77 }

/-- A machine about to run `F30A` while key 5, and only key 5, is pressed. -/
def key_demo : chip8_t :=
  { boot [0xF3, 0x0A] with keypad := store (fun _ => false) 5 true }

/-- A machine about to run `00E0` on a display whose cell (3, 4) is on; the
draw flag is false, as `initialize` left it. -/
def clear_demo : chip8_t :=
  { boot [0x00, 0xE0] with display := store (fun _ => false) (DISPLAY_WIDTH * 4 + 3) true }

/-- A machine about to run `F129` with V1 = 0xA. -/
def font_demo : chip8_t :=
  { boot [0xF1, 0x29] with V := store (fun _ => 0) 1 0xA }

/-- A machine about to run `E19E` with V1 = 5 and key 5 pressed. -/
def skip_demo : chip8_t :=
  { boot [0xE1, 0x9E] with
    V := store (fun _ => 0) 1 5
    keypad := store (fun _ => false) 5 true }

/-- A machine about to run `E1A1` with V1 = 5 and key 5 pressed. -/
def skip_not_demo : chip8_t :=
  { boot [0xE1, 0xA1] with
    V := store (fun _ => 0) 1 5
    keypad := store (fun _ => false) 5 true }

/-- The machine of the load scenario: `6A02` at 0x200. -/
def load_demo : chip8_t := boot [0x6A, 0x02]

/-- A machine about to run `F255` with V0, V1, V2 = 0x11, 0x22, 0x33,
V3 = 0x44 and idx = 0x300. -/
def store_demo : chip8_t :=
  { boot [0xF2, 0x55] with
    V := store (store (store (store (fun _ => 0) 0 0x11) 1 0x22) 2 0x33) 3 0x44
    idx := 0x300 }

/-- A machine about to run `F265` with idx = 0x300, the bytes 0x11, 0x22,
0x33 at 0x300 .. 0x302, and every register holding 0x99. -/
def fill_demo : chip8_t :=
  { boot [0xF2, 0x65] with
    V := fun _ => 0x99
    idx := 0x300
    memory := store (store (store (boot [0xF2, 0x65]).memory 0x300 0x11) 0x301 0x22)
      0x302 0x33 }

/-- The instruction words of the 35 documented patterns 0NNN, 00E0, 00EE,
1NNN, 2NNN, 3XNN, 4XNN, 5XY0, 6XNN, 7XNN, 8XY0 .. 8XY7, 8XYE, 9XY0, ANNN,
BNNN, CXNN, DXYN, EX9E, EXA1, FX07, FX0A, FX15, FX18, FX1E, FX29, FX33, FX55,
FX65.  This is the list of the specification, not the dispatch of the code. -/
def documented (op : Nat) : Bool :=
  match op / 4096 % 16 with
  | 5 => op % 16 == 0
  | 8 => decide (op % 16 ≤ 7) || op % 16 == 14
  | 9 => op % 16 == 0
  | 14 => op % 256 == 0x9E || op % 256 == 0xA1
  | 15 => [0x07, 0x0A, 0x15, 0x18, 0x1E, 0x29, 0x33, 0x55, 0x65].contains (op % 256)
  | _ => true

/-- A machine about to run the undocumented word `5121`; V1 = V2 = 0. -/
def undoc_demo : chip8_t := boot [0x51, 0x21]

/-- A machine about to run the undocumented word `812F`, V1 = 7, V2 = 9. -/
def noop_demo : chip8_t :=
  { boot [0x81, 0x2F] with V := store (store (fun _ => 0) 1 7) 2 9 }

/-- A freshly booted machine whose program starts with `1201`, a jump to the
odd address 0x201. -/
def jump_odd_demo : chip8_t := boot [0x12, 0x01]

/-- A freshly booted machine whose program starts with `1208`, a jump to the
even address 0x208. -/
def jump_even_demo : chip8_t := boot [0x12, 0x08]

/-- A machine about to run the call `2204` with sp = 15. -/
def call15_demo : chip8_t := { boot [0x22, 0x04] with sp := 15 }

/-- A freshly booted machine (sp = 0) whose program starts with the return
`00EE`. -/
def ret0_demo : chip8_t := boot [0x00, 0xEE]

/-- The machine of `skip_demo` (`E19E`, V1 = 5, key 5 pressed) in run mode
QUIT. -/
def quit_demo : chip8_t := { skip_demo with state := state_t.QUIT }

/-- A machine about to run `7105` (add 5 to V1) with V1 = 0xFE and
V[0xF] = 9. -/
def addi_demo : chip8_t :=
  { boot [0x71, 0x05] with V := store (store (fun _ => 0) 1 0xFE) 0xF 9 }

/-- A machine about to run `81F4` (X = 1, Y = 0xF) with V1 = 3 and
V[0xF] = 5. -/
def add_alias_demo : chip8_t :=
  { boot [0x81, 0xF4] with V := store (store (fun _ => 0) 1 3) 0xF 5 }

/-- A machine about to run `8F14` (X = 0xF, Y = 1) with V[0xF] = 5 and
V1 = 3. -/
def add_flag_demo : chip8_t :=
  { boot [0x8F, 0x14] with V := store (store (fun _ => 0) 1 3) 0xF 5 }

/-- A machine about to run the undocumented word `9115` (9XYk with
X = Y = 1); V1 = 7. -/
def undoc9_demo : chip8_t :=
  { boot [0x91, 0x15] with V := store (fun _ => 0) 1 7 }

/-- A machine about to run the undocumented word `E190` (EX9k) with V1 = 5
and key 5 pressed. -/
def undocE_demo : chip8_t :=
  { boot [0xE1, 0x90] with
    V := store (fun _ => 0) 1 5
    keypad := store (fun _ => false) 5 true }

/-! ## Initialisation: proofs -/

theorem store_same {α : Type} (a : Nat → α) (i : Nat) (v : α) : store a i v i = v := by
  simp [store]

theorem store_other {α : Type} (a : Nat → α) (i k : Nat) (v : α) (h : k ≠ i) :
    store a i v k = a k := by
  simp [store, h]

/-- A run of the font loop leaves alone every address it does not name. -/
theorem foldl_store_frame (f : Nat → Nat) (l : List Nat) (m : Nat → Nat) (a : Nat)
    (h : ∀ i ∈ l, a ≠ FONT_START + i) :
    l.foldl (fun m i => store m (FONT_START + i) (f i)) m a = m a := by
  induction l generalizing m with
  | nil => rfl
  | cons x xs ih =>
    rw [List.foldl_cons, ih]
    · exact store_other _ _ _ _ (h x (List.mem_cons_self x xs))
    · intro i hi
      exact h i (List.mem_cons_of_mem x hi)

theorem load_fontset_frame (m : Nat → Nat) (a : Nat) (h : a < FONT_START ∨ FONT_END ≤ a) :
    load_fontset m a = m a := by
  unfold load_fontset
  apply foldl_store_frame
  intro i hi
  have hi2 : i < 80 := List.mem_range.mp hi
  simp only [FONT_START, FONT_END] at h ⊢
  omega

theorem load_fontset_font (m : Nat → Nat) (k : Nat) (hk : k < 80) :
    load_fontset m (FONT_START + k) = chip8_fontset.getD k 0 := by
  interval_cases k <;> rfl

/-- C1: whatever the machine struct held before, `initialize` leaves
pc = 0x200, opcode = idx = sp = 0, all sixteen registers, all sixteen stack
slots and all sixteen keypad entries cleared, all 64*32 display cells off,
run mode RUNNING, the draw flag false, the eighty font bytes at
0x50 .. 0x9F equal to `chip8_fontset`, and every other memory byte zero. -/
theorem initialize_spec (c : chip8_t) :
    (chip8_init c).pc = 0x200 ∧ (chip8_init c).opcode = 0 ∧
    (chip8_init c).idx = 0 ∧ (chip8_init c).sp = 0 ∧
    (∀ i, i < 16 → (chip8_init c).V i = 0) ∧
    (∀ i, i < 16 → (chip8_init c).stack i = 0) ∧
    (∀ i, i < 16 → (chip8_init c).keypad i = false) ∧
    (∀ p, p < 64 * 32 → (chip8_init c).display p = false) ∧
    (chip8_init c).state = state_t.RUNNING ∧ (chip8_init c).draw = false ∧
    chip8_fontset.length = 16 * 5 ∧
    (∀ k, k < 80 → (chip8_init c).memory (0x50 + k) = chip8_fontset.getD k 0) ∧
    (∀ a, a < 0x50 ∨ (0xA0 ≤ a ∧ a < 4096) → (chip8_init c).memory a = 0) := by
  refine ⟨rfl, rfl, rfl, rfl, fun _ _ => rfl, fun _ _ => rfl, fun _ _ => rfl,
    fun _ _ => rfl, rfl, rfl, rfl, ?_, ?_⟩
  · intro k hk
    exact load_fontset_font _ k hk
  · intro a ha
    show load_fontset (fun _ => 0) a = 0
    rw [load_fontset_frame]
    rcases ha with h | ⟨h, _⟩
    · exact Or.inl h
    · exact Or.inr h

/-! ## Opcode fields as quotients and remainders -/

theorem and_mul_two_pow (a m k : Nat) :
    a &&& (2 ^ k * m) = 2 ^ k * ((a / 2 ^ k) &&& m) := by
  apply Nat.eq_of_testBit_eq
  intro i
  simp only [Nat.testBit_and, Nat.testBit_mul_pow_two, ← Nat.shiftRight_eq_div_pow,
    Nat.testBit_shiftRight]
  by_cases h : k ≤ i
  · simp [h]
  · simp [h]

theorem and_F000 (op : Nat) : op &&& 0xF000 = 4096 * (op / 4096 % 16) := by
  have h := and_mul_two_pow op 15 12
  have h2 := Nat.and_pow_two_sub_one_eq_mod (op / 4096) 4
  norm_num at h h2
  rw [h, h2]

theorem and_0F00 (op : Nat) : op &&& 0x0F00 = 256 * (op / 256 % 16) := by
  have h := and_mul_two_pow op 15 8
  have h2 := Nat.and_pow_two_sub_one_eq_mod (op / 256) 4
  norm_num at h h2
  rw [h, h2]

theorem and_00F0 (op : Nat) : op &&& 0x00F0 = 16 * (op / 16 % 16) := by
  have h := and_mul_two_pow op 15 4
  have h2 := Nat.and_pow_two_sub_one_eq_mod (op / 16) 4
  norm_num at h h2
  rw [h, h2]

theorem and_000F (op : Nat) : op &&& 0x000F = op % 16 :=
  Nat.and_pow_two_sub_one_eq_mod op 4

theorem and_00FF (op : Nat) : op &&& 0x00FF = op % 256 :=
  Nat.and_pow_two_sub_one_eq_mod op 8

theorem and_0FFF (op : Nat) : op &&& 0x0FFF = op % 4096 :=
  Nat.and_pow_two_sub_one_eq_mod op 12

theorem X_field (op : Nat) : (op &&& 0x0F00) >>> 8 = op / 256 % 16 := by
  rw [and_0F00, Nat.shiftRight_eq_div_pow]; omega

theorem Y_field (op : Nat) : (op &&& 0x00F0) >>> 4 = op / 16 % 16 := by
  rw [and_00F0, Nat.shiftRight_eq_div_pow]; omega

theorem fetch_word (hi lo : Nat) (hlo : lo < 256) : hi <<< 8 ||| lo = 256 * hi + lo := by
  rw [Nat.shiftLeft_eq, Nat.mul_comm]
  exact (Nat.mul_add_lt_is_or (i := 8) hlo hi).symm

/-- The fetch of an instruction whose two bytes are `hi` and `lo`. -/
theorem emulate_cycle_fetch (rand : Nat) (c : chip8_t) (hi lo : Nat)
    (hpc : c.pc + 1 < MEMORY_SIZE) (hhi : c.memory c.pc = hi)
    (hlo : c.memory (c.pc + 1) = lo) (hhi256 : hi < 256) (hlo256 : lo < 256) :
    emulate_cycle rand c =
      execute rand { c with opcode := 256 * hi + lo, pc := c.pc + 2 } := by
  unfold emulate_cycle
  rw [if_pos hpc, hhi, hlo, fetch_word hi lo hlo256]
  have h1 : (256 * hi + lo) % 65536 = 256 * hi + lo := by omega
  have h2 : (c.pc + 2) % 65536 = c.pc + 2 := by
    simp only [MEMORY_SIZE] at hpc; omega
  simp only [h1, h2]

/-! ## The register-register group `8XY_` -/

/-- C2: when the next instruction is 8XY4 with X and Y other than 0xF and
a = V[X], b = V[Y] are 8-bit values, one `emulate_cycle` leaves V[0xF] = 1 if
a + b > 255 and 0 otherwise, and V[X] = (a + b) mod 256. -/
theorem add_8XY4 (rand : Nat) (c : chip8_t) (X Y : Nat)
    (hX : X < 16) (hY : Y < 16) (hXF : X ≠ 0xF) (hYF : Y ≠ 0xF)
    (hpc : c.pc + 1 < MEMORY_SIZE)
    (hhi : c.memory c.pc = 0x80 + X) (hlo : c.memory (c.pc + 1) = 16 * Y + 4)
    (_ha : c.V X < 256) (_hb : c.V Y < 256) :
    ∃ c', emulate_cycle rand c = some c' ∧
      c'.V 0xF = (if c.V X + c.V Y > 255 then 1 else 0) ∧
      c'.V X = (c.V X + c.V Y) % 256 := by
  rw [emulate_cycle_fetch rand c _ _ hpc hhi hlo (by omega) (by omega)]
  have e1 : (256 * (0x80 + X) + (16 * Y + 4)) / 4096 % 16 = 8 := by omega
  have e2 : (256 * (0x80 + X) + (16 * Y + 4)) % 16 = 4 := by omega
  have e3 : (256 * (0x80 + X) + (16 * Y + 4)) / 256 % 16 = X := by omega
  have e4 : (256 * (0x80 + X) + (16 * Y + 4)) / 16 % 16 = Y := by omega
  unfold execute
  simp [and_F000, and_000F, X_field, Y_field, e1, e2, e3, e4, store, hXF, hYF, Ne.symm hXF]

/-- C2, the scenario of the specification: V[X] = 0xFF and V[Y] = 0x01 give
V[0xF] = 1 and V[X] = 0x00. -/
theorem add_8XY4_witness :
    ∃ c', emulate_cycle 0 add_demo = some c' ∧ c'.V 0xF = 1 ∧ c'.V 1 = 0x00 :=
  add_8XY4 0 add_demo 1 2 (by decide) (by decide) (by decide) (by decide)
    (by decide) rfl rfl (by decide) (by decide)

/-- C3: at the scenario of the specification (8XY5 with V[X] = 0x01 and
V[Y] = 0x02, a borrow) the step stores the wrapped difference 0xFF but leaves
V[0xF] = 1, where the claim and the comment in the source both ask for 0. -/
theorem sub_8XY5_flag_on_borrow :
    ∃ c', emulate_cycle 0 sub_demo = some c' ∧ c'.V 0xF = 1 ∧ c'.V 1 = 0xFF :=
  ⟨_, rfl, rfl, rfl⟩

/-- C4: when the next instruction is 8XY6 with X other than 0xF and
v = V[X] an 8-bit value, one `emulate_cycle` leaves V[0xF] = v & 1 and
V[X] = v >> 1; when it is 8XYE, V[0xF] = (v & 0x80) >> 7 and
V[X] = (v << 1) mod 256.  In both cases V[Y] keeps its value when Y is neither
X nor 0xF, and is not read: the step from a state that differs only in V[Y]
yields the same V[0xF] and V[X]. -/
theorem shift_8XY6_8XYE (rand : Nat) (c : chip8_t) (X Y : Nat)
    (hX : X < 16) (hY : Y < 16) (hXF : X ≠ 0xF)
    (hpc : c.pc + 1 < MEMORY_SIZE) (hhi : c.memory c.pc = 0x80 + X)
    (_hv : c.V X < 256) :
    (c.memory (c.pc + 1) = 16 * Y + 0x6 →
      ∃ c', emulate_cycle rand c = some c' ∧
        c'.V 0xF = c.V X &&& 1 ∧ c'.V X = c.V X >>> 1 ∧
        (Y ≠ X → Y ≠ 0xF → c'.V Y = c.V Y) ∧
        (Y ≠ X → ∀ w, ∃ d, emulate_cycle rand { c with V := store c.V Y w } = some d ∧
          d.V 0xF = c'.V 0xF ∧ d.V X = c'.V X)) ∧
    (c.memory (c.pc + 1) = 16 * Y + 0xE →
      ∃ c', emulate_cycle rand c = some c' ∧
        c'.V 0xF = (c.V X &&& 0x80) >>> 7 ∧ c'.V X = (c.V X <<< 1) % 256 ∧
        (Y ≠ X → Y ≠ 0xF → c'.V Y = c.V Y) ∧
        (Y ≠ X → ∀ w, ∃ d, emulate_cycle rand { c with V := store c.V Y w } = some d ∧
          d.V 0xF = c'.V 0xF ∧ d.V X = c'.V X)) := by
  constructor
  · intro hlo
    rw [emulate_cycle_fetch rand c _ _ hpc hhi hlo (by omega) (by omega)]
    have e1 : (256 * (0x80 + X) + (16 * Y + 0x6)) / 4096 % 16 = 8 := by omega
    have e2 : (256 * (0x80 + X) + (16 * Y + 0x6)) % 16 = 6 := by omega
    have e3 : (256 * (0x80 + X) + (16 * Y + 0x6)) / 256 % 16 = X := by omega
    refine ⟨_, by unfold execute; simp [and_F000, and_000F, X_field, e1, e2, e3]; rfl,
      ?_, ?_, ?_, ?_⟩
    · simp [store, hXF, Ne.symm hXF]
    · simp [store, hXF, Ne.symm hXF]
    · intro h1 h2
      simp [store, h1, h2]
    · intro h1 w
      rw [emulate_cycle_fetch rand { c with V := store c.V Y w } _ _ hpc hhi hlo
        (by omega) (by omega)]
      refine ⟨_, by unfold execute; simp [and_F000, and_000F, X_field, e1, e2, e3]; rfl,
        ?_, ?_⟩
      · simp [store, hXF, Ne.symm hXF, Ne.symm h1]
      · simp [store, hXF, Ne.symm hXF, Ne.symm h1]
  · intro hlo
    rw [emulate_cycle_fetch rand c _ _ hpc hhi hlo (by omega) (by omega)]
    have e1 : (256 * (0x80 + X) + (16 * Y + 0xE)) / 4096 % 16 = 8 := by omega
    have e2 : (256 * (0x80 + X) + (16 * Y + 0xE)) % 16 = 14 := by omega
    have e3 : (256 * (0x80 + X) + (16 * Y + 0xE)) / 256 % 16 = X := by omega
    refine ⟨_, by unfold execute; simp [and_F000, and_000F, X_field, e1, e2, e3]; rfl,
      ?_, ?_, ?_, ?_⟩
    · simp [store, hXF, Ne.symm hXF]
    · simp [store, hXF, Ne.symm hXF]
    · intro h1 h2
      simp [store, h1, h2]
    · intro h1 w
      rw [emulate_cycle_fetch rand { c with V := store c.V Y w } _ _ hpc hhi hlo
        (by omega) (by omega)]
      refine ⟨_, by unfold execute; simp [and_F000, and_000F, X_field, e1, e2, e3]; rfl,
        ?_, ?_⟩
      · simp [store, hXF, Ne.symm hXF, Ne.symm h1]
      · simp [store, hXF, Ne.symm hXF, Ne.symm h1]

/-- C4 at V[1] = 0x85: the right shift gives V[0xF] = 1, V[1] = 0x42 and the
left shift gives V[0xF] = 1, V[1] = 0x0A; V[2] = 0x33 stays. -/
theorem shift_8XY6_8XYE_witness :
    (∃ c', emulate_cycle 0 shr_demo = some c' ∧
      c'.V 0xF = 1 ∧ c'.V 1 = 0x42 ∧ c'.V 2 = 0x33) ∧
    (∃ c', emulate_cycle 0 shl_demo = some c' ∧
      c'.V 0xF = 1 ∧ c'.V 1 = 0x0A ∧ c'.V 2 = 0x33) := by
  obtain ⟨c1, h1, h2, h3, h4, _⟩ :=
    (shift_8XY6_8XYE 0 shr_demo 1 2 (by decide) (by decide) (by decide) (by decide) rfl
      (by decide)).1 rfl
  obtain ⟨c2, k1, k2, k3, k4, _⟩ :=
    (shift_8XY6_8XYE 0 shl_demo 1 2 (by decide) (by decide) (by decide) (by decide) rfl
      (by decide)).2 rfl
  exact ⟨⟨c1, h1, h2, h3, h4 (by decide) (by decide)⟩,
    ⟨c2, k1, k2, k3, k4 (by decide) (by decide)⟩⟩

/-- C5: at 8XY7 with V[X] = 0x01 and V[Y] = 0x02 (no borrow, Y ≥ X) the step
stores the difference 0x01 but leaves V[0xF] = 0, where the claim and the
comment in the source both ask for 1. -/
theorem rsub_8XY7_flag_without_borrow :
    ∃ c', emulate_cycle 0 rsub_demo = some c' ∧ c'.V 0xF = 0 ∧ c'.V 1 = 0x01 :=
  ⟨_, rfl, rfl, rfl⟩

/-! ## The sprite draw `DXYN` -/

theorem and_one_shiftLeft (row k : Nat) : ((row &&& 1 <<< k) != 0) = row.testBit k := by
  have h := and_mul_two_pow row 1 k
  rw [Nat.mul_one] at h
  rw [Nat.shiftLeft_eq, Nat.one_mul, h, Nat.and_one_is_mod, Nat.testBit_to_div_mod]
  have hp : 0 < 2 ^ k := Nat.two_pow_pos k
  rcases Nat.mod_two_eq_zero_or_one (row / 2 ^ k) with h0 | h1
  · simp [h0]
  · simp [h1, Nat.ne_of_gt hp]

theorem DrawInv.congr {memory : Nat → Nat} {idx x y : Nat} {S T : Nat → Nat → Prop}
    {V : Nat → Nat} {d : Nat → Bool} {V1 : Nat → Nat} {d1 : Nat → Bool}
    (h : ∀ a b, S a b ↔ T a b) (inv : DrawInv memory idx x y S V d V1 d1) :
    DrawInv memory idx x y T V d V1 d1 := by
  have e : S = T := funext fun a => funext fun b => propext (h a b)
  rw [← e]
  exact inv

theorem DrawInv.start (memory : Nat → Nat) (idx x y : Nat) (S : Nat → Nat → Prop)
    (V : Nat → Nat) (d : Nat → Bool) (hS : ∀ a b, ¬ S a b) :
    DrawInv memory idx x y S V d V d where
  regs := fun _ _ => rfl
  hit := fun ⟨i, j, h, _⟩ => absurd h (hS i j)
  miss := fun _ => rfl
  drawn := fun i j h => absurd h (hS i j)
  frame := fun _ _ => rfl

/-- One pixel: the step is in bounds and extends the drawn set by `(i, j)`. -/
theorem draw_pixel_inv (memory : Nat → Nat) (idx x y X Y i j : Nat) (S : Nat → Nat → Prop)
    (V : Nat → Nat) (d : Nat → Bool) (V1 : Nat → Nat) (d1 : Nat → Bool)
    (hXF : X ≠ 0xF) (hYF : Y ≠ 0xF) (hVX : V X = x) (hVY : V Y = y)
    (hx : x + j < 64) (hy : y + i < 32)
    (hnew : ∀ a b, S a b → pixel_index x y a b ≠ pixel_index x y i j)
    (inv : DrawInv memory idx x y S V d V1 d1) :
    ∃ V2 d2, draw_pixel X Y i (memory (idx + i)) (V1, d1) j = some (V2, d2) ∧
      DrawInv memory idx x y (fun a b => S a b ∨ (a = i ∧ b = j)) V d V2 d2 := by
  have hVX1 : V1 X = x := by rw [inv.regs X hXF, hVX]
  have hVY1 : V1 Y = y := by rw [inv.regs Y hYF, hVY]
  have hold : d1 (pixel_index x y i j) = d (pixel_index x y i j) :=
    inv.frame _ (fun a b hab => (hnew a b hab).symm)
  have hin : DISPLAY_WIDTH * ((y + i) % 256) + (x + j) % 256 = pixel_index x y i j := by
    rw [Nat.mod_eq_of_lt (by omega), Nat.mod_eq_of_lt (by omega)]
    rfl
  have hlt : pixel_index x y i j < DISPLAY_WIDTH * DISPLAY_HEIGHT := by
    simp only [pixel_index, DISPLAY_WIDTH, DISPLAY_HEIGHT]
    omega
  have hstep : draw_pixel X Y i (memory (idx + i)) (V1, d1) j =
      some (if (d (pixel_index x y i j) && sprite_bit memory idx i j) = true
          then store V1 0xF 1 else V1,
        store d1 (pixel_index x y i j)
          (xor (d (pixel_index x y i j)) (sprite_bit memory idx i j))) := by
    unfold draw_pixel
    simp only [hVX1, hVY1, hin, if_pos hlt, and_one_shiftLeft, hold, sprite_bit]
  refine ⟨_, _, hstep, ?_⟩
  constructor
  · intro r hr
    by_cases hc : (d (pixel_index x y i j) && sprite_bit memory idx i j) = true
    · rw [if_pos hc, store_other _ _ _ _ hr]
      exact inv.regs r hr
    · rw [if_neg hc]
      exact inv.regs r hr
  · rintro ⟨a, b, hab, hbit, hd⟩
    by_cases hc : (d (pixel_index x y i j) && sprite_bit memory idx i j) = true
    · rw [if_pos hc, store_same]
    · rw [if_neg hc]
      rcases hab with hS | ⟨rfl, rfl⟩
      · exact inv.hit ⟨a, b, hS, hbit, hd⟩
      · simp [hbit, hd] at hc
  · intro hno
    have hc : ¬ (d (pixel_index x y i j) && sprite_bit memory idx i j) = true := by
      intro hc
      simp only [Bool.and_eq_true] at hc
      exact hno ⟨i, j, Or.inr ⟨rfl, rfl⟩, hc.2, hc.1⟩
    rw [if_neg hc]
    exact inv.miss (fun ⟨a, b, hS, hbit, hd⟩ => hno ⟨a, b, Or.inl hS, hbit, hd⟩)
  · intro a b hab
    rcases hab with hS | ⟨rfl, rfl⟩
    · rw [store_other _ _ _ _ (hnew a b hS)]
      exact inv.drawn a b hS
    · rw [store_same]
  · intro p hp
    rw [store_other _ _ _ _ (hp i j (Or.inr ⟨rfl, rfl⟩))]
    exact inv.frame p (fun a b hS => hp a b (Or.inl hS))

/-- The inner loop: after columns `0 .. k-1` of row `i`. -/
theorem draw_row_inv (memory : Nat → Nat) (idx x y X Y i : Nat)
    (V : Nat → Nat) (d : Nat → Bool) (V1 : Nat → Nat) (d1 : Nat → Bool)
    (hXF : X ≠ 0xF) (hYF : Y ≠ 0xF) (hVX : V X = x) (hVY : V Y = y)
    (hx : x + 7 < 64) (hy : y + i < 32)
    (inv : DrawInv memory idx x y (fun a b => a < i ∧ b < 8) V d V1 d1)
    (k : Nat) (hk : k ≤ 8) :
    ∃ V2 d2, (List.range k).foldlM (draw_pixel X Y i (memory (idx + i))) (V1, d1) =
        some (V2, d2) ∧
      DrawInv memory idx x y (fun a b => (a < i ∧ b < 8) ∨ (a = i ∧ b < k)) V d V2 d2 := by
  induction k with
  | zero =>
    refine ⟨V1, d1, rfl, inv.congr ?_⟩
    intro a b
    constructor
    · exact fun h => Or.inl h
    · rintro (h | ⟨_, h⟩)
      · exact h
      · exact absurd h (Nat.not_lt_zero b)
  | succ k ih =>
    obtain ⟨V2, d2, hrun, inv2⟩ := ih (by omega)
    have hnew : ∀ a b, ((a < i ∧ b < 8) ∨ (a = i ∧ b < k)) →
        pixel_index x y a b ≠ pixel_index x y i k := by
      intro a b hab
      simp only [pixel_index, DISPLAY_WIDTH]
      omega
    obtain ⟨V3, d3, hstep, inv3⟩ :=
      draw_pixel_inv memory idx x y X Y i k _ V d V2 d2 hXF hYF hVX hVY (by omega) hy hnew inv2
    refine ⟨V3, d3, ?_, inv3.congr ?_⟩
    · rw [List.range_succ, List.foldlM_append, hrun]
      simp only [Option.bind_eq_bind, Option.some_bind, List.foldlM_cons, List.foldlM_nil, hstep]
      rfl
    · intro a b
      constructor
      · rintro ((h | ⟨h1, h2⟩) | ⟨h1, h2⟩)
        · exact Or.inl h
        · exact Or.inr ⟨h1, by omega⟩
        · exact Or.inr ⟨h1, by omega⟩
      · rintro (h | ⟨h1, h2⟩)
        · exact Or.inl (Or.inl h)
        · by_cases hb : b = k
          · exact Or.inr ⟨h1, hb⟩
          · exact Or.inl (Or.inr ⟨h1, by omega⟩)

/-- The outer loop: after rows `0 .. n-1`, every memory read and every display
access having been in bounds. -/
theorem draw_sprite_inv (memory : Nat → Nat) (idx x y X Y : Nat)
    (V : Nat → Nat) (d : Nat → Bool)
    (hXF : X ≠ 0xF) (hYF : Y ≠ 0xF) (hVX : V X = x) (hVY : V Y = y) (hx : x + 7 < 64)
    (n : Nat) (hy : y + n ≤ 32) (hidx : idx + n ≤ MEMORY_SIZE) :
    ∃ V2 d2, draw_sprite memory idx X Y n (V, d) = some (V2, d2) ∧
      DrawInv memory idx x y (fun a b => a < n ∧ b < 8) V d V2 d2 := by
  induction n with
  | zero =>
    exact ⟨V, d, rfl, DrawInv.start memory idx x y _ V d (fun a _ h => Nat.not_lt_zero a h.1)⟩
  | succ n ih =>
    obtain ⟨V2, d2, hrun, inv2⟩ := ih (by omega) (by omega)
    obtain ⟨V3, d3, hrow, inv3⟩ :=
      draw_row_inv memory idx x y X Y n V d V2 d2 hXF hYF hVX hVY hx (by omega) inv2 8
        (Nat.le_refl 8)
    refine ⟨V3, d3, ?_, inv3.congr ?_⟩
    · unfold draw_sprite at hrun ⊢
      rw [List.range_succ, List.foldlM_append, hrun]
      have hmem : idx + n < MEMORY_SIZE := by omega
      simp only [Option.bind_eq_bind, Option.some_bind, List.foldlM_cons, List.foldlM_nil,
        if_pos hmem, draw_row, hrow]
      rfl
    · intro a b
      constructor
      · rintro (⟨h1, h2⟩ | ⟨h1, h2⟩)
        · exact ⟨by omega, h2⟩
        · exact ⟨by omega, h2⟩
      · rintro ⟨h1, h2⟩
        by_cases ha : a = n
        · exact Or.inr ⟨ha, h2⟩
        · exact Or.inl ⟨by omega, h2⟩

/-- The whole step for `DXYN` when the sprite lies inside the display and
inside memory and neither coordinate register is the flag register. -/
theorem emulate_cycle_DXYN (rand : Nat) (c : chip8_t) (X Y N : Nat)
    (hX : X < 16) (hY : Y < 16) (hN : N < 16) (hXF : X ≠ 0xF) (hYF : Y ≠ 0xF)
    (hpc : c.pc + 1 < MEMORY_SIZE)
    (hhi : c.memory c.pc = 0xD0 + X) (hlo : c.memory (c.pc + 1) = 16 * Y + N)
    (hx : c.V X + 7 < 64) (hy : c.V Y + N ≤ 32) (hidx : c.idx + N ≤ MEMORY_SIZE) :
    ∃ V2 d2,
      emulate_cycle rand c = some { c with
        opcode := 256 * (0xD0 + X) + (16 * Y + N), pc := c.pc + 2,
        V := V2, display := d2, draw := true } ∧
      DrawInv c.memory c.idx (c.V X) (c.V Y) (fun a b => a < N ∧ b < 8)
        (store c.V 0xF 0) c.display V2 d2 := by
  obtain ⟨V2, d2, hrun, inv⟩ :=
    draw_sprite_inv c.memory c.idx (c.V X) (c.V Y) X Y (store c.V 0xF 0) c.display hXF hYF
      (store_other _ _ _ _ hXF) (store_other _ _ _ _ hYF) hx N hy hidx
  refine ⟨V2, d2, ?_, inv⟩
  rw [emulate_cycle_fetch rand c _ _ hpc hhi hlo (by omega) (by omega)]
  have e1 : (256 * (0xD0 + X) + (16 * Y + N)) / 4096 % 16 = 13 := by omega
  have e2 : (256 * (0xD0 + X) + (16 * Y + N)) % 16 = N := by omega
  have e3 : (256 * (0xD0 + X) + (16 * Y + N)) / 256 % 16 = X := by omega
  have e4 : (256 * (0xD0 + X) + (16 * Y + N)) / 16 % 16 = Y := by omega
  unfold execute
  simp [and_F000, and_000F, X_field, Y_field, e1, e2, e3, e4, hrun]

/-- C6: when the next instruction is DXYN with X and Y other than 0xF,
V[X] + 7 < 64, V[Y] + N ≤ 32 and idx + N ≤ 4096, one `emulate_cycle` leaves
every cell (V[X]+j, V[Y]+i), i < N, j < 8, equal to its old value XOR bit 7-j
of memory[idx+i], leaves every other display cell as it was, and leaves
V[0xF] = 1 exactly when some set sprite bit met a cell that was on before the
draw, V[0xF] = 0 otherwise. -/
theorem draw_DXYN (rand : Nat) (c : chip8_t) (X Y N : Nat)
    (hX : X < 16) (hY : Y < 16) (hN : N < 16) (hXF : X ≠ 0xF) (hYF : Y ≠ 0xF)
    (hpc : c.pc + 1 < MEMORY_SIZE)
    (hhi : c.memory c.pc = 0xD0 + X) (hlo : c.memory (c.pc + 1) = 16 * Y + N)
    (hx : c.V X + 7 < 64) (hy : c.V Y + N ≤ 32) (hidx : c.idx + N ≤ 4096) :
    ∃ c', emulate_cycle rand c = some c' ∧
      (∀ i j, i < N → j < 8 →
        cell c'.display (c.V X + j) (c.V Y + i) =
          xor (cell c.display (c.V X + j) (c.V Y + i))
            ((c.memory (c.idx + i)).testBit (7 - j))) ∧
      (∀ p, (∀ i j, i < N → j < 8 → p ≠ DISPLAY_WIDTH * (c.V Y + i) + (c.V X + j)) →
        c'.display p = c.display p) ∧
      (c'.V 0xF = 1 ↔ ∃ i j, i < N ∧ j < 8 ∧
        (c.memory (c.idx + i)).testBit (7 - j) = true ∧
        cell c.display (c.V X + j) (c.V Y + i) = true) ∧
      ((¬ ∃ i j, i < N ∧ j < 8 ∧
        (c.memory (c.idx + i)).testBit (7 - j) = true ∧
        cell c.display (c.V X + j) (c.V Y + i) = true) → c'.V 0xF = 0) := by
  obtain ⟨V2, d2, hrun, inv⟩ :=
    emulate_cycle_DXYN rand c X Y N hX hY hN hXF hYF hpc hhi hlo hx hy hidx
  have hmiss : (¬ ∃ i j, i < N ∧ j < 8 ∧
      (c.memory (c.idx + i)).testBit (7 - j) = true ∧
      cell c.display (c.V X + j) (c.V Y + i) = true) → V2 0xF = 0 := by
    intro hno
    rw [inv.miss (fun ⟨i, j, ⟨h1, h2⟩, h3, h4⟩ => hno ⟨i, j, h1, h2, h3, h4⟩)]
    exact store_same _ _ _
  refine ⟨_, hrun, ?_, ?_, ⟨?_, ?_⟩, hmiss⟩
  · intro i j hi hj
    exact inv.drawn i j ⟨hi, hj⟩
  · intro p hp
    exact inv.frame p (fun i j h => hp i j h.1 h.2)
  · intro h1
    by_contra hno
    have h0 : V2 0xF = 0 := hmiss hno
    have h1' : V2 0xF = 1 := h1
    omega
  · rintro ⟨i, j, h1, h2, h3, h4⟩
    exact inv.hit ⟨i, j, ⟨h1, h2⟩, h3, h4⟩

/-- C6 on the glyph `0` drawn at (3, 4) over a display with only cell (3, 4)
on: that cell goes off, its right neighbour goes on, the cell left of the
sprite stays off, and V[0xF] = 1. -/
theorem draw_DXYN_witness :
    ∃ c', emulate_cycle 0 draw_demo = some c' ∧
      cell c'.display 3 4 = false ∧ cell c'.display 4 4 = true ∧
      cell c'.display 2 4 = false ∧ c'.V 0xF = 1 := by
  obtain ⟨c', h, hdrawn, hframe, hflag, _⟩ :=
    draw_DXYN 0 draw_demo 1 2 5 (by decide) (by decide) (by decide) (by decide) (by decide)
      (by decide) rfl rfl (by decide) (by decide) (by decide)
  refine ⟨c', h, hdrawn 0 0 (by decide) (by decide), hdrawn 0 1 (by decide) (by decide), ?_,
    hflag.mpr ⟨0, 0, by decide, by decide, rfl, rfl⟩⟩
  refine hframe (DISPLAY_WIDTH * 4 + 2) ?_
  intro i j _ _
  show 64 * 4 + 2 ≠ 64 * (4 + i) + (3 + j)
  omega

/-- C7: when the next two instructions are the same DXYN (X and Y other
than 0xF, V[X] + 7 < 64, V[Y] + N ≤ 32, idx + N ≤ 4096), the first draw leaves
V[X], V[Y], idx and memory as they were, the second draw returns every
display cell to its value before the first, and after the second draw
V[0xF] = 1 exactly when some cell under a set sprite bit was on immediately
before the second draw, V[0xF] = 0 otherwise. -/
theorem draw_DXYN_twice (rand1 rand2 : Nat) (c : chip8_t) (X Y N : Nat)
    (hX : X < 16) (hY : Y < 16) (hN : N < 16) (hXF : X ≠ 0xF) (hYF : Y ≠ 0xF)
    (hpc : c.pc + 3 < MEMORY_SIZE)
    (hhi : c.memory c.pc = 0xD0 + X) (hlo : c.memory (c.pc + 1) = 16 * Y + N)
    (hhi2 : c.memory (c.pc + 2) = 0xD0 + X) (hlo2 : c.memory (c.pc + 3) = 16 * Y + N)
    (hx : c.V X + 7 < 64) (hy : c.V Y + N ≤ 32) (hidx : c.idx + N ≤ 4096) :
    ∃ c1 c2, emulate_cycle rand1 c = some c1 ∧ emulate_cycle rand2 c1 = some c2 ∧
      c1.V X = c.V X ∧ c1.V Y = c.V Y ∧ c1.idx = c.idx ∧ c1.memory = c.memory ∧
      (∀ p, c2.display p = c.display p) ∧
      (c2.V 0xF = 1 ↔ ∃ i j, i < N ∧ j < 8 ∧
        (c.memory (c.idx + i)).testBit (7 - j) = true ∧
        cell c1.display (c.V X + j) (c.V Y + i) = true) ∧
      ((¬ ∃ i j, i < N ∧ j < 8 ∧
        (c.memory (c.idx + i)).testBit (7 - j) = true ∧
        cell c1.display (c.V X + j) (c.V Y + i) = true) → c2.V 0xF = 0) := by
  have hpc1 : c.pc + 1 < MEMORY_SIZE := by
    simp only [MEMORY_SIZE] at hpc ⊢
    omega
  obtain ⟨V1, d1, hrun1, inv1⟩ :=
    emulate_cycle_DXYN rand1 c X Y N hX hY hN hXF hYF hpc1 hhi hlo hx hy hidx
  have hVX : V1 X = c.V X := by rw [inv1.regs X hXF, store_other _ _ _ _ hXF]
  have hVY : V1 Y = c.V Y := by rw [inv1.regs Y hYF, store_other _ _ _ _ hYF]
  obtain ⟨V2, d2, hrun2, inv2⟩ :=
    emulate_cycle_DXYN rand2
      { c with opcode := 256 * (0xD0 + X) + (16 * Y + N), pc := c.pc + 2,
               V := V1, display := d1, draw := true }
      X Y N hX hY hN hXF hYF hpc hhi2 hlo2
      (by show V1 X + 7 < 64; rw [hVX]; exact hx)
      (by show V1 Y + N ≤ 32; rw [hVY]; exact hy) hidx
  simp only [hVX, hVY] at inv2
  have hmiss : (¬ ∃ i j, i < N ∧ j < 8 ∧
      (c.memory (c.idx + i)).testBit (7 - j) = true ∧
      cell d1 (c.V X + j) (c.V Y + i) = true) → V2 0xF = 0 := by
    intro hno
    rw [inv2.miss (fun ⟨i, j, ⟨h1, h2⟩, h3, h4⟩ => hno ⟨i, j, h1, h2, h3, h4⟩)]
    exact store_same _ _ _
  refine ⟨_, _, hrun1, hrun2, hVX, hVY, rfl, rfl, ?_, ⟨?_, ?_⟩, hmiss⟩
  · intro p
    show d2 p = c.display p
    by_cases hin : ∃ i j, (i < N ∧ j < 8) ∧ p = pixel_index (c.V X) (c.V Y) i j
    · obtain ⟨i, j, hij, rfl⟩ := hin
      have h2 := inv2.drawn i j hij
      have h1 := inv1.drawn i j hij
      simp only at h2
      rw [h2, h1]
      cases c.display (pixel_index (c.V X) (c.V Y) i j) <;>
        cases sprite_bit c.memory c.idx i j <;> rfl
    · have hout : ∀ i j, i < N ∧ j < 8 → p ≠ pixel_index (c.V X) (c.V Y) i j :=
        fun i j hij hp => hin ⟨i, j, hij, hp⟩
      have h2 := inv2.frame p hout
      have h1 := inv1.frame p hout
      simp only at h2
      rw [h2, h1]
  · intro h1
    by_contra hno
    have h0 : V2 0xF = 0 := hmiss hno
    have h1' : V2 0xF = 1 := h1
    omega
  · rintro ⟨i, j, h1, h2, h3, h4⟩
    exact inv2.hit ⟨i, j, ⟨h1, h2⟩, h3, h4⟩

/-- C7 on the glyph `0` drawn twice at (3, 4) over a display with only cell
(3, 4) on: after the second draw cell (3, 4) is on again, cell (4, 4) is off
again, and V[0xF] = 1 because cell (4, 4) was on before the second draw. -/
theorem draw_DXYN_twice_witness :
    ∃ c1 c2, emulate_cycle 0 draw_demo = some c1 ∧ emulate_cycle 0 c1 = some c2 ∧
      cell c2.display 3 4 = true ∧ cell c2.display 4 4 = false ∧ c2.V 0xF = 1 := by
  obtain ⟨c1, c2, h1, h2, _, _, _, _, hdisp, hflag, _⟩ :=
    draw_DXYN_twice 0 0 draw_demo 1 2 5 (by decide) (by decide) (by decide) (by decide)
      (by decide) (by decide) rfl rfl rfl rfl (by decide) (by decide) (by decide)
  obtain ⟨V1, d1, h1', inv1⟩ :=
    emulate_cycle_DXYN 0 draw_demo 1 2 5 (by decide) (by decide) (by decide) (by decide)
      (by decide) (by decide) rfl rfl (by decide) (by decide) (by decide)
  have e := Option.some.inj (h1'.symm.trans h1)
  subst e
  exact ⟨_, c2, h1, h2, hdisp _, hdisp _,
    hflag.mpr ⟨0, 1, by decide, by decide, rfl, inv1.drawn 0 1 (by decide)⟩⟩

/-! ## Binary-coded decimal `FX33` -/

/-- C8: when the next instruction is FX33, v = V[X] is an 8-bit value and
idx + 2 < 4096, one `emulate_cycle` leaves memory[idx] = v / 100,
memory[idx+1] = (v / 10) mod 10, memory[idx+2] = v mod 10 (three digits, each
at most 9, that recompose to v) and changes no other memory byte, no register
and not idx (nor sp, stack, display, keypad, timers, run mode, draw flag). -/
theorem bcd_FX33 (rand : Nat) (c : chip8_t) (X : Nat) (hX : X < 16)
    (hpc : c.pc + 1 < MEMORY_SIZE)
    (hhi : c.memory c.pc = 0xF0 + X) (hlo : c.memory (c.pc + 1) = 0x33)
    (hv : c.V X < 256) (hidx : c.idx + 2 < 4096) :
    ∃ c', emulate_cycle rand c = some c' ∧
      c'.memory c.idx = c.V X / 100 ∧
      c'.memory (c.idx + 1) = c.V X / 10 % 10 ∧
      c'.memory (c.idx + 2) = c.V X % 10 ∧
      100 * c'.memory c.idx + 10 * c'.memory (c.idx + 1) + c'.memory (c.idx + 2) = c.V X ∧
      c'.memory c.idx ≤ 9 ∧ c'.memory (c.idx + 1) ≤ 9 ∧ c'.memory (c.idx + 2) ≤ 9 ∧
      (∀ a, a ≠ c.idx → a ≠ c.idx + 1 → a ≠ c.idx + 2 → c'.memory a = c.memory a) ∧
      c'.V = c.V ∧ c'.idx = c.idx ∧ c'.sp = c.sp ∧ c'.stack = c.stack ∧
      c'.display = c.display ∧ c'.keypad = c.keypad ∧
      c'.delay_timer = c.delay_timer ∧ c'.sound_timer = c.sound_timer ∧
      c'.state = c.state ∧ c'.draw = c.draw := by
  rw [emulate_cycle_fetch rand c _ _ hpc hhi hlo (by omega) (by omega)]
  have e1 : (256 * (0xF0 + X) + 0x33) / 4096 % 16 = 15 := by omega
  have e2 : (256 * (0xF0 + X) + 0x33) % 256 = 0x33 := by omega
  have e3 : (256 * (0xF0 + X) + 0x33) / 256 % 16 = X := by omega
  have hm : c.idx + 2 < MEMORY_SIZE := hidx
  have hrun : execute rand { c with opcode := 256 * (0xF0 + X) + 0x33, pc := c.pc + 2 } =
      some { c with
        opcode := 256 * (0xF0 + X) + 0x33, pc := c.pc + 2,
        memory := store (store (store c.memory (c.idx + 2) (c.V X % 10)) (c.idx + 1)
          (c.V X / 10 % 10)) c.idx (c.V X / 10 / 10) } := by
    unfold execute
    simp [and_F000, and_00FF, X_field, e1, e2, e3, hm]
  have h100 : c.V X / 10 / 10 = c.V X / 100 := by omega
  have m0 : store (store (store c.memory (c.idx + 2) (c.V X % 10)) (c.idx + 1)
      (c.V X / 10 % 10)) c.idx (c.V X / 10 / 10) c.idx = c.V X / 100 := by
    rw [store_same, h100]
  have m1 : store (store (store c.memory (c.idx + 2) (c.V X % 10)) (c.idx + 1)
      (c.V X / 10 % 10)) c.idx (c.V X / 10 / 10) (c.idx + 1) = c.V X / 10 % 10 := by
    rw [store_other _ _ _ _ (by omega), store_same]
  have m2 : store (store (store c.memory (c.idx + 2) (c.V X % 10)) (c.idx + 1)
      (c.V X / 10 % 10)) c.idx (c.V X / 10 / 10) (c.idx + 2) = c.V X % 10 := by
    rw [store_other _ _ _ _ (by omega), store_other _ _ _ _ (by omega), store_same]
  refine ⟨_, hrun, m0, m1, m2, ?_, ?_, ?_, ?_, ?_, rfl, rfl, rfl, rfl, rfl, rfl, rfl, rfl,
    rfl, rfl⟩
  · simp only [m0, m1, m2]
    omega
  · simp only [m0]
    omega
  · simp only [m1]
    omega
  · simp only [m2]
    omega
  · intro a h0 h1 h2
    show store _ _ _ a = c.memory a
    rw [store_other _ _ _ _ h0, store_other _ _ _ _ h1, store_other _ _ _ _ h2]

/-- C8 at the three values of the specification: 156 gives 1, 5, 6; 0 gives
0, 0, 0; 255 gives 2, 5, 5. -/
theorem bcd_FX33_witness :
    (∃ c', emulate_cycle 0 (bcd_demo 156) = some c' ∧
      c'.memory 0x300 = 1 ∧ c'.memory 0x301 = 5 ∧ c'.memory 0x302 = 6) ∧
    (∃ c', emulate_cycle 0 (bcd_demo 0) = some c' ∧
      c'.memory 0x300 = 0 ∧ c'.memory 0x301 = 0 ∧ c'.memory 0x302 = 0) ∧
    (∃ c', emulate_cycle 0 (bcd_demo 255) = some c' ∧
      c'.memory 0x300 = 2 ∧ c'.memory 0x301 = 5 ∧ c'.memory 0x302 = 5) := by
  obtain ⟨a, ha, a0, a1, a2, _⟩ :=
    bcd_FX33 0 (bcd_demo 156) 1 (by decide) (by decide) rfl rfl (by decide) (by decide)
  obtain ⟨b, hb, b0, b1, b2, _⟩ :=
    bcd_FX33 0 (bcd_demo 0) 1 (by decide) (by decide) rfl rfl (by decide) (by decide)
  obtain ⟨d, hd, d0, d1, d2, _⟩ :=
    bcd_FX33 0 (bcd_demo 255) 1 (by decide) (by decide) rfl rfl (by decide) (by decide)
  exact ⟨⟨a, ha, a0, a1, a2⟩, ⟨b, hb, b0, b1, b2⟩, ⟨d, hd, d0, d1, d2⟩⟩

/-! ## Call and return -/

/-- C9: from a state with sp < 16 whose next instruction is the call 2NNN
(NNN + 1 < 4096) and whose memory holds 00EE at NNN, the call followed by the
return leaves PC at the address it had when the call executed (the address
of the call plus 2) and sp at its value before the call. -/
theorem call_return_roundtrip (rand1 rand2 : Nat) (c : chip8_t) (NNN : Nat)
    (hNNN : NNN + 1 < 4096) (hsp : c.sp < 16) (hpc : c.pc + 1 < MEMORY_SIZE)
    (hhi : c.memory c.pc = 0x20 + NNN / 256) (hlo : c.memory (c.pc + 1) = NNN % 256)
    (hr1 : c.memory NNN = 0x00) (hr2 : c.memory (NNN + 1) = 0xEE) :
    ∃ c1 c2, emulate_cycle rand1 c = some c1 ∧ emulate_cycle rand2 c1 = some c2 ∧
      c1.pc = NNN ∧ c1.sp = c.sp + 1 ∧ c1.stack c.sp = c.pc + 2 ∧
      c2.pc = c.pc + 2 ∧ c2.sp = c.sp := by
  have e1 : (256 * (0x20 + NNN / 256) + NNN % 256) / 4096 % 16 = 2 := by omega
  have e2 : (256 * (0x20 + NNN / 256) + NNN % 256) % 4096 = NNN := by omega
  have hsp1 : (c.sp + 1) % 65536 = c.sp + 1 := by omega
  have hcall : emulate_cycle rand1 c = some { c with
      opcode := 256 * (0x20 + NNN / 256) + NNN % 256
      stack := store c.stack c.sp (c.pc + 2)
      sp := c.sp + 1
      pc := NNN } := by
    rw [emulate_cycle_fetch rand1 c _ _ hpc hhi hlo (by omega) (by omega)]
    unfold execute
    simp [and_F000, and_0FFF, e1, e2, hsp, hsp1]
  have hsp2 : (c.sp + 1 + 65535) % 65536 = c.sp := by omega
  have hret : emulate_cycle rand2 { c with
      opcode := 256 * (0x20 + NNN / 256) + NNN % 256
      stack := store c.stack c.sp (c.pc + 2)
      sp := c.sp + 1
      pc := NNN } = some { c with
      opcode := 256 * 0x00 + 0xEE
      stack := store c.stack c.sp (c.pc + 2)
      sp := c.sp
      pc := c.pc + 2 } := by
    rw [emulate_cycle_fetch rand2 _ 0x00 0xEE hNNN hr1 hr2 (by omega) (by omega)]
    unfold execute
    simp [and_F000, and_000F, hsp2, hsp, store_same]
  exact ⟨_, _, hcall, hret, rfl, rfl, store_same _ _ _, rfl, rfl⟩

/-- C9 on a call at 0x200 to a return at 0x204 with sp = 3: PC ends at 0x202
and sp at 3. -/
theorem call_return_roundtrip_witness :
    ∃ c1 c2, emulate_cycle 0 call_demo = some c1 ∧ emulate_cycle 0 c1 = some c2 ∧
      c1.pc = 0x204 ∧ c1.sp = 4 ∧ c2.pc = 0x202 ∧ c2.sp = 3 := by
  obtain ⟨c1, c2, h1, h2, h3, h4, _, h5, h6⟩ :=
    call_return_roundtrip 0 0 call_demo 0x204 (by decide) (by decide) (by decide)
      rfl rfl rfl rfl
  exact ⟨c1, c2, h1, h2, h3, h4, h5, h6⟩

/-! ## Await key `FX0A` -/

theorem scan_loop_idle (keypad : Nat → Bool) (X : Nat) (l : List Nat)
    (st : (Nat → Nat) × Bool) (h : ∀ i ∈ l, keypad i = false) :
    l.foldl (fun st i => if keypad i = true then (store st.1 X (keypad i).toNat, true) else st)
      st = st := by
  induction l generalizing st with
  | nil => rfl
  | cons x xs ih =>
    rw [List.foldl_cons, h x (List.mem_cons_self x xs)]
    exact ih _ (fun i hi => h i (List.mem_cons_of_mem x hi))

theorem scan_keypad_idle (keypad : Nat → Bool) (X : Nat) (V : Nat → Nat)
    (h : ∀ i, i < 16 → keypad i = false) : scan_keypad keypad X V = (V, false) :=
  scan_loop_idle keypad X _ _ (fun i hi => h i (List.mem_range.mp hi))

/-- C10: when the next instruction is FX0A and all sixteen keypad entries
are false, one `emulate_cycle` latches the opcode and changes nothing else:
PC is where it was before the step, every register, idx, sp, the stack,
memory, the display and both timers are unchanged; the step from the
resulting state is the same step again. -/
theorem await_key_idle (rand : Nat) (c : chip8_t) (X : Nat) (hX : X < 16)
    (hpc : c.pc + 1 < MEMORY_SIZE)
    (hhi : c.memory c.pc = 0xF0 + X) (hlo : c.memory (c.pc + 1) = 0x0A)
    (hkeys : ∀ i, i < 16 → c.keypad i = false) :
    ∃ c', emulate_cycle rand c = some c' ∧
      c'.pc = c.pc ∧ c'.V = c.V ∧ c'.idx = c.idx ∧ c'.sp = c.sp ∧ c'.stack = c.stack ∧
      c'.memory = c.memory ∧ c'.display = c.display ∧
      c'.delay_timer = c.delay_timer ∧ c'.sound_timer = c.sound_timer ∧
      c'.keypad = c.keypad ∧ c'.state = c.state ∧ c'.draw = c.draw ∧
      c'.opcode = 0xF00A + 256 * X ∧
      (∀ rand2, emulate_cycle rand2 c' = some c') := by
  have e1 : (256 * (0xF0 + X) + 0x0A) / 4096 % 16 = 15 := by omega
  have e2 : (256 * (0xF0 + X) + 0x0A) % 256 = 0x0A := by omega
  have e3 : (256 * (0xF0 + X) + 0x0A) / 256 % 16 = X := by omega
  have hback : (c.pc + 2 + 65534) % 65536 = c.pc := by
    simp only [MEMORY_SIZE] at hpc
    omega
  have hlt : c.pc < 65536 := by
    simp only [MEMORY_SIZE] at hpc
    omega
  have hstep : ∀ (r : Nat) (op : Nat), emulate_cycle r { c with opcode := op } =
      some { c with opcode := 256 * (0xF0 + X) + 0x0A } := by
    intro r op
    rw [emulate_cycle_fetch r { c with opcode := op } _ _ hpc hhi hlo (by omega) (by omega)]
    unfold execute
    simp [and_F000, and_00FF, X_field, e1, e2, e3, scan_keypad_idle _ _ _ hkeys, hback, hlt]
  refine ⟨_, hstep rand c.opcode, rfl, rfl, rfl, rfl, rfl, rfl, rfl, rfl, rfl, rfl, rfl, rfl,
    by show 256 * (0xF0 + X) + 0x0A = 0xF00A + 256 * X; omega, ?_⟩
  intro rand2
  exact hstep rand2 _

/-- C10 on `F30A` at 0x200 with V3 = 0x77: PC stays at 0x200, V3 stays 0x77,
and the next step is the same again. -/
theorem await_key_idle_witness :
    ∃ c', emulate_cycle 0 await_demo = some c' ∧ c'.pc = 0x200 ∧ c'.V 3 = 0x77 ∧
      c'.opcode = 0xF30A ∧ emulate_cycle 0 c' = some c' := by
  obtain ⟨c', h, hpc, hV, _, _, _, _, _, _, _, _, _, _, hop, hagain⟩ :=
    await_key_idle 0 await_demo 3 (by decide) (by decide) rfl rfl (fun _ _ => rfl)
  exact ⟨c', h, hpc, by rw [hV]; rfl, hop, hagain 0⟩

/-! ## Await key `FX0A` with a key pressed -/

/-- C11: at FX0A (X = 3) with key 5 the only key pressed, the step advances
PC by 2 but leaves V[3] = 1, the truth value of the keypad entry, where the
claim asks for the index 5; key 1, which V[3] then names, is not pressed. -/
theorem await_key_stores_truth_value :
    ∃ c', emulate_cycle 0 key_demo = some c' ∧ c'.V 3 = 1 ∧ c'.keypad (c'.V 3) = false ∧
      key_demo.keypad 5 = true ∧ c'.pc = key_demo.pc + 2 :=
  ⟨_, rfl, rfl, rfl, rfl, rfl⟩

/-! ## Redraw flag -/

/-- C13: at 00E0 with the draw flag false, the step clears the display and
leaves the draw flag false, where the claim asks for true. -/
theorem clear_leaves_draw_flag :
    ∃ c', emulate_cycle 0 clear_demo = some c' ∧ clear_demo.draw = false ∧
      c'.display (DISPLAY_WIDTH * 4 + 3) = false ∧ c'.draw = false :=
  ⟨_, rfl, rfl, rfl, rfl⟩

/-! ## Timers -/

/-- C17: `update_timers` leaves each timer at old - 1 if it was positive and
at 0 if it was 0, each independently of the other, and changes no other
field of the machine. -/
theorem update_timers_spec (c : chip8_t) :
    (update_timers c).delay_timer = (if c.delay_timer > 0 then c.delay_timer - 1 else 0) ∧
    (update_timers c).sound_timer = (if c.sound_timer > 0 then c.sound_timer - 1 else 0) ∧
    (update_timers c).V = c.V ∧ (update_timers c).pc = c.pc ∧
    (update_timers c).opcode = c.opcode ∧ (update_timers c).idx = c.idx ∧
    (update_timers c).sp = c.sp ∧ (update_timers c).stack = c.stack ∧
    (update_timers c).memory = c.memory ∧ (update_timers c).display = c.display ∧
    (update_timers c).keypad = c.keypad ∧ (update_timers c).state = c.state ∧
    (update_timers c).sdl = c.sdl ∧ (update_timers c).draw = c.draw := by
  unfold update_timers
  by_cases hd : c.delay_timer > 0 <;> by_cases hs : c.sound_timer > 0
  · simp [hd, hs]
  · simp only [hd, hs, if_true, if_false]
    simp
    omega
  · simp only [hd, hs, if_true, if_false]
    simp
    omega
  · simp only [hd, hs, if_true, if_false]
    simp
    omega

/-! ## Load immediate `6XNN` -/

theorem or_0x60 (X : Nat) (hX : X < 16) : 0x60 ||| X = 0x60 + X := by
  interval_cases X <;> rfl

/-- C18: when PC + 1 < 4096, memory[PC] = 0x60 | X and memory[PC+1] = NN,
one `emulate_cycle` latches the opcode 256 * memory[PC] + memory[PC+1], sets
V[X] = NN, advances PC by 2, and leaves every other register, idx, sp, the
stack, memory, the display, both timers (and keypad, run mode, draw flag)
unchanged. -/
theorem load_immediate_6XNN (rand : Nat) (c : chip8_t) (X NN : Nat)
    (hX : X < 16) (hNN : NN < 256) (hpc : c.pc + 1 < 4096)
    (hhi : c.memory c.pc = 0x60 ||| X) (hlo : c.memory (c.pc + 1) = NN) :
    ∃ c', emulate_cycle rand c = some c' ∧
      c'.opcode = 256 * c.memory c.pc + c.memory (c.pc + 1) ∧
      c'.V X = NN ∧ c'.pc = c.pc + 2 ∧
      (∀ r, r ≠ X → c'.V r = c.V r) ∧
      c'.idx = c.idx ∧ c'.sp = c.sp ∧ c'.stack = c.stack ∧ c'.memory = c.memory ∧
      c'.display = c.display ∧ c'.delay_timer = c.delay_timer ∧
      c'.sound_timer = c.sound_timer ∧ c'.keypad = c.keypad ∧ c'.state = c.state ∧
      c'.draw = c.draw := by
  rw [or_0x60 X hX] at hhi
  have e1 : (256 * (0x60 + X) + NN) / 4096 % 16 = 6 := by omega
  have e2 : (256 * (0x60 + X) + NN) % 256 = NN := by omega
  have e3 : (256 * (0x60 + X) + NN) / 256 % 16 = X := by omega
  have e4 : NN % 256 = NN := by omega
  have hrun : emulate_cycle rand c = some { c with
      opcode := 256 * (0x60 + X) + NN, pc := c.pc + 2, V := store c.V X NN } := by
    rw [emulate_cycle_fetch rand c _ _ hpc hhi hlo (by omega) hNN]
    unfold execute
    simp [and_F000, and_00FF, X_field, e1, e2, e3, e4]
  refine ⟨_, hrun, ?_, store_same _ _ _, rfl, fun r hr => store_other _ _ _ _ hr,
    rfl, rfl, rfl, rfl, rfl, rfl, rfl, rfl, rfl, rfl⟩
  show 256 * (0x60 + X) + NN = 256 * c.memory c.pc + c.memory (c.pc + 1)
  rw [hhi, hlo]

/-- C18, the scenario of the specification: 0x6A02 gives opcode latch
0x6A02, V[10] = 0x02 and PC = 0x202. -/
theorem load_immediate_6XNN_witness :
    ∃ c', emulate_cycle 0 load_demo = some c' ∧ c'.opcode = 0x6A02 ∧ c'.V 10 = 0x02 ∧
      c'.pc = 0x202 := by
  obtain ⟨c', h, h1, h2, h3, _⟩ :=
    load_immediate_6XNN 0 load_demo 10 0x02 (by decide) (by decide) (by decide) rfl rfl
  exact ⟨c', h, h1, h2, h3⟩

/-! ## Key skips `EX9E` and `EXA1` -/

/-- C16: with V[X] < 16, EX9E leaves PC = old PC + 4 if keypad[V[X]] is true
and old PC + 2 otherwise, EXA1 leaves PC = old PC + 4 if keypad[V[X]] is false
and old PC + 2 otherwise, and apart from PC and the opcode latch the machine
is as it was. -/
theorem key_skip_EX9E_EXA1 (rand : Nat) (c : chip8_t) (X : Nat)
    (hX : X < 16) (hpc : c.pc + 1 < MEMORY_SIZE) (hhi : c.memory c.pc = 0xE0 + X)
    (hV : c.V X < 16) :
    (c.memory (c.pc + 1) = 0x9E →
      emulate_cycle rand c = some { c with
        opcode := 0xE09E + 256 * X
        pc := if c.keypad (c.V X) = true then c.pc + 4 else c.pc + 2 }) ∧
    (c.memory (c.pc + 1) = 0xA1 →
      emulate_cycle rand c = some { c with
        opcode := 0xE0A1 + 256 * X
        pc := if c.keypad (c.V X) = false then c.pc + 4 else c.pc + 2 }) := by
  have hlt : c.pc + 2 + 2 < 65536 := by
    simp only [MEMORY_SIZE] at hpc
    omega
  have hmod : (c.pc + 2 + 2) % 65536 = c.pc + 4 := by omega
  constructor
  · intro hlo
    rw [emulate_cycle_fetch rand c _ _ hpc hhi hlo (by omega) (by omega)]
    have e0 : 256 * (0xE0 + X) + 0x9E = 0xE09E + 256 * X := by omega
    have e1 : (0xE09E + 256 * X) / 4096 % 16 = 14 := by omega
    have e2 : (0xE09E + 256 * X) / 16 % 16 = 9 := by omega
    have e3 : (0xE09E + 256 * X) / 256 % 16 = X := by omega
    rw [e0]
    unfold execute
    by_cases hk : c.keypad (c.V X) = true
    · simp [and_F000, and_00F0, X_field, e1, e2, e3, hV, hk, hmod]
    · simp [and_F000, and_00F0, X_field, e1, e2, e3, hV, hk]
  · intro hlo
    rw [emulate_cycle_fetch rand c _ _ hpc hhi hlo (by omega) (by omega)]
    have e0 : 256 * (0xE0 + X) + 0xA1 = 0xE0A1 + 256 * X := by omega
    have e1 : (0xE0A1 + 256 * X) / 4096 % 16 = 14 := by omega
    have e2 : (0xE0A1 + 256 * X) / 16 % 16 = 10 := by omega
    have e3 : (0xE0A1 + 256 * X) / 256 % 16 = X := by omega
    rw [e0]
    unfold execute
    by_cases hk : c.keypad (c.V X) = true
    · simp [and_F000, and_00F0, X_field, e1, e2, e3, hV, hk]
    · simp [and_F000, and_00F0, X_field, e1, e2, e3, hV, hk, hmod]

/-- C16 with V[1] = 5 and key 5 pressed: E19E skips (PC = 0x204), E1A1 does
not (PC = 0x202), and the registers and the keypad are as before. -/
theorem key_skip_EX9E_EXA1_witness :
    (∃ c', emulate_cycle 0 skip_demo = some c' ∧ c'.pc = 0x204 ∧
      c'.V = skip_demo.V ∧ c'.keypad = skip_demo.keypad) ∧
    (∃ c', emulate_cycle 0 skip_not_demo = some c' ∧ c'.pc = 0x202 ∧
      c'.V = skip_not_demo.V ∧ c'.keypad = skip_not_demo.keypad) :=
  ⟨⟨_, (key_skip_EX9E_EXA1 0 skip_demo 1 (by decide) (by decide) rfl (by decide)).1 rfl,
      rfl, rfl, rfl⟩,
    ⟨_, (key_skip_EX9E_EXA1 0 skip_not_demo 1 (by decide) (by decide) rfl (by decide)).2 rfl,
      rfl, rfl, rfl⟩⟩

/-! ## Font address `FX29` -/

/-- C15: when the next instruction is FX29 and d = V[X] is an 8-bit value,
one `emulate_cycle` leaves idx = 0x50 + 5 * d; when moreover d ≤ 15 and the
font region 0x50 .. 0x9F holds `chip8_fontset`, idx lies in [0x50, 0xA0 - 5]
and memory[idx .. idx+4] are the bytes 5d .. 5d+4 of `chip8_fontset`. -/
theorem font_address_FX29 (rand : Nat) (c : chip8_t) (X : Nat) (hX : X < 16)
    (hpc : c.pc + 1 < MEMORY_SIZE)
    (hhi : c.memory c.pc = 0xF0 + X) (hlo : c.memory (c.pc + 1) = 0x29)
    (hd : c.V X < 256) :
    ∃ c', emulate_cycle rand c = some c' ∧ c'.idx = 0x50 + 5 * c.V X ∧
      (c.V X ≤ 15 → (∀ k, k < 80 → c.memory (0x50 + k) = chip8_fontset.getD k 0) →
        0x50 ≤ c'.idx ∧ c'.idx ≤ 0xA0 - 5 ∧
        ∀ r, r < 5 → c'.memory (c'.idx + r) = chip8_fontset.getD (5 * c.V X + r) 0) := by
  have e1 : (256 * (0xF0 + X) + 0x29) / 4096 % 16 = 15 := by omega
  have e2 : (256 * (0xF0 + X) + 0x29) % 256 = 0x29 := by omega
  have e3 : (256 * (0xF0 + X) + 0x29) / 256 % 16 = X := by omega
  have e4 : (FONT_START + c.V X * FONT_HEIGHT) % 65536 = 0x50 + 5 * c.V X := by
    simp only [FONT_START, FONT_HEIGHT]
    omega
  have hrun : emulate_cycle rand c = some { c with
      opcode := 256 * (0xF0 + X) + 0x29, pc := c.pc + 2, idx := 0x50 + 5 * c.V X } := by
    rw [emulate_cycle_fetch rand c _ _ hpc hhi hlo (by omega) (by omega)]
    unfold execute
    simp [and_F000, and_00FF, X_field, e1, e2, e3, e4]
  refine ⟨_, hrun, rfl, ?_⟩
  intro h15 hfont
  refine ⟨by show 0x50 ≤ 0x50 + 5 * c.V X; omega,
    by show 0x50 + 5 * c.V X ≤ 0xA0 - 5; omega, ?_⟩
  intro r hr
  show c.memory (0x50 + 5 * c.V X + r) = chip8_fontset.getD (5 * c.V X + r) 0
  rw [Nat.add_assoc]
  exact hfont (5 * c.V X + r) (by omega)

/-- C15 with V[1] = 0xA on a freshly booted machine: idx = 0x82 and the five
bytes there are the glyph `A`: F0 90 F0 90 90. -/
theorem font_address_FX29_witness :
    ∃ c', emulate_cycle 0 font_demo = some c' ∧ c'.idx = 0x82 ∧
      c'.memory 0x82 = 0xF0 ∧ c'.memory 0x83 = 0x90 ∧ c'.memory 0x84 = 0xF0 ∧
      c'.memory 0x85 = 0x90 ∧ c'.memory 0x86 = 0x90 := by
  obtain ⟨c', h, hidx, hglyph⟩ :=
    font_address_FX29 0 font_demo 1 (by decide) (by decide) rfl rfl (by decide)
  have hfont : ∀ k, k < 80 → font_demo.memory (0x50 + k) = chip8_fontset.getD k 0 := by
    intro k hk
    interval_cases k <;> rfl
  obtain ⟨_, _, hrows⟩ := hglyph (by decide) hfont
  have hidx' : c'.idx = 0x82 := hidx
  rw [hidx'] at hrows
  exact ⟨c', h, hidx', hrows 0 (by decide), hrows 1 (by decide), hrows 2 (by decide),
    hrows 3 (by decide), hrows 4 (by decide)⟩

/-! ## Register range store and load, `FX55` and `FX65` -/

/-- The store loop over `0 .. n-1`: in bounds, the bytes written, the frame. -/
theorem store_loop (V : Nat → Nat) (idx : Nat) (memory : Nat → Nat) (n : Nat)
    (h : idx + n ≤ MEMORY_SIZE) :
    ∃ m, (List.range n).foldlM
        (fun m i => if idx + i < MEMORY_SIZE then some (store m (idx + i) (V i)) else none)
        memory = some m ∧
      (∀ i, i < n → m (idx + i) = V i) ∧
      (∀ a, a < idx ∨ idx + n ≤ a → m a = memory a) := by
  induction n with
  | zero => exact ⟨memory, rfl, fun i hi => absurd hi (Nat.not_lt_zero i), fun _ _ => rfl⟩
  | succ n ih =>
    obtain ⟨m, hrun, hw, hf⟩ := ih (by omega)
    have hin : idx + n < MEMORY_SIZE := by omega
    refine ⟨store m (idx + n) (V n), ?_, ?_, ?_⟩
    · rw [List.range_succ, List.foldlM_append, hrun]
      simp only [Option.bind_eq_bind, Option.some_bind, List.foldlM_cons, List.foldlM_nil,
        if_pos hin]
      rfl
    · intro i hi
      by_cases hin : i = n
      · rw [hin, store_same]
      · rw [store_other _ _ _ _ (by omega)]
        exact hw i (by omega)
    · intro a ha
      rw [store_other _ _ _ _ (by omega)]
      exact hf a (by omega)

/-- The load loop over `0 .. n-1`: in bounds, the registers written, the frame. -/
theorem load_loop (memory : Nat → Nat) (idx : Nat) (V : Nat → Nat) (n : Nat)
    (h : idx + n ≤ MEMORY_SIZE) :
    ∃ v, (List.range n).foldlM
        (fun v i => if idx + i < MEMORY_SIZE then some (store v i (memory (idx + i))) else none)
        V = some v ∧
      (∀ i, i < n → v i = memory (idx + i)) ∧
      (∀ r, n ≤ r → v r = V r) := by
  induction n with
  | zero => exact ⟨V, rfl, fun i hi => absurd hi (Nat.not_lt_zero i), fun _ _ => rfl⟩
  | succ n ih =>
    obtain ⟨v, hrun, hw, hf⟩ := ih (by omega)
    have hin : idx + n < MEMORY_SIZE := by omega
    refine ⟨store v n (memory (idx + n)), ?_, ?_, ?_⟩
    · rw [List.range_succ, List.foldlM_append, hrun]
      simp only [Option.bind_eq_bind, Option.some_bind, List.foldlM_cons, List.foldlM_nil,
        if_pos hin]
      rfl
    · intro i hi
      by_cases hin : i = n
      · rw [hin, store_same]
      · rw [store_other _ _ _ _ hin]
        exact hw i (by omega)
    · intro r hr
      rw [store_other _ _ _ _ (by omega)]
      exact hf r (by omega)

/-- The step for `FX55` when the range fits in memory. -/
theorem emulate_cycle_FX55 (rand : Nat) (c : chip8_t) (X : Nat) (hX : X < 16)
    (hpc : c.pc + 1 < MEMORY_SIZE)
    (hhi : c.memory c.pc = 0xF0 + X) (hlo : c.memory (c.pc + 1) = 0x55)
    (hidx : c.idx + X < 4096) :
    ∃ m, emulate_cycle rand c = some { c with
        opcode := 256 * (0xF0 + X) + 0x55, pc := c.pc + 2, memory := m } ∧
      (∀ i, i ≤ X → m (c.idx + i) = c.V i) ∧
      (∀ a, a < c.idx ∨ c.idx + X < a → m a = c.memory a) := by
  obtain ⟨m, hrun, hw, hf⟩ := store_loop c.V c.idx c.memory (X + 1) (by
    simp only [MEMORY_SIZE]
    omega)
  refine ⟨m, ?_, fun i hi => hw i (by omega), fun a ha => hf a (by omega)⟩
  have e1 : (256 * (0xF0 + X) + 0x55) / 4096 % 16 = 15 := by omega
  have e2 : (256 * (0xF0 + X) + 0x55) % 256 = 0x55 := by omega
  have e3 : (256 * (0xF0 + X) + 0x55) / 256 % 16 = X := by omega
  rw [emulate_cycle_fetch rand c _ _ hpc hhi hlo (by omega) (by omega)]
  unfold execute
  simp [and_F000, and_00FF, X_field, e1, e2, e3, store_registers, hrun]

/-- The step for `FX65` when the range fits in memory. -/
theorem emulate_cycle_FX65 (rand : Nat) (c : chip8_t) (X : Nat) (hX : X < 16)
    (hpc : c.pc + 1 < MEMORY_SIZE)
    (hhi : c.memory c.pc = 0xF0 + X) (hlo : c.memory (c.pc + 1) = 0x65)
    (hidx : c.idx + X < 4096) :
    ∃ v, emulate_cycle rand c = some { c with
        opcode := 256 * (0xF0 + X) + 0x65, pc := c.pc + 2, V := v } ∧
      (∀ i, i ≤ X → v i = c.memory (c.idx + i)) ∧
      (∀ r, X < r → v r = c.V r) := by
  obtain ⟨v, hrun, hw, hf⟩ := load_loop c.memory c.idx c.V (X + 1) (by
    simp only [MEMORY_SIZE]
    omega)
  refine ⟨v, ?_, fun i hi => hw i (by omega), fun r hr => hf r (by omega)⟩
  have e1 : (256 * (0xF0 + X) + 0x65) / 4096 % 16 = 15 := by omega
  have e2 : (256 * (0xF0 + X) + 0x65) % 256 = 0x65 := by omega
  have e3 : (256 * (0xF0 + X) + 0x65) / 256 % 16 = X := by omega
  rw [emulate_cycle_fetch rand c _ _ hpc hhi hlo (by omega) (by omega)]
  unfold execute
  simp [and_F000, and_00FF, X_field, e1, e2, e3, load_registers, hrun]

/-- C14: for X < 16 and idx + X < 4096, FX55 sets memory[idx + i] = V[i] for
every i ≤ X and changes no other memory byte, no register and not idx; FX65
sets V[i] = memory[idx + i] for every i ≤ X and changes no register above X,
no memory and not idx; and an FX65 with the same X and idx, run in any later
state whose bytes memory[idx .. idx+X] are still those the FX55 left, gives
registers 0 .. X the values they had at the store. -/
theorem registers_FX55_FX65 (rand : Nat) (c : chip8_t) (X : Nat) (hX : X < 16)
    (hpc : c.pc + 1 < MEMORY_SIZE) (hhi : c.memory c.pc = 0xF0 + X)
    (hidx : c.idx + X < 4096) :
    (c.memory (c.pc + 1) = 0x55 →
      ∃ c', emulate_cycle rand c = some c' ∧
        (∀ i, i ≤ X → c'.memory (c.idx + i) = c.V i) ∧
        (∀ a, a < c.idx ∨ c.idx + X < a → c'.memory a = c.memory a) ∧
        c'.V = c.V ∧ c'.idx = c.idx ∧
        (∀ (rand2 : Nat) (d : chip8_t), d.pc + 1 < MEMORY_SIZE →
          d.memory d.pc = 0xF0 + X → d.memory (d.pc + 1) = 0x65 → d.idx = c.idx →
          (∀ i, i ≤ X → d.memory (c.idx + i) = c'.memory (c.idx + i)) →
          ∃ d', emulate_cycle rand2 d = some d' ∧ ∀ i, i ≤ X → d'.V i = c.V i)) ∧
    (c.memory (c.pc + 1) = 0x65 →
      ∃ c', emulate_cycle rand c = some c' ∧
        (∀ i, i ≤ X → c'.V i = c.memory (c.idx + i)) ∧
        (∀ r, X < r → c'.V r = c.V r) ∧
        c'.memory = c.memory ∧ c'.idx = c.idx) := by
  constructor
  · intro hlo
    obtain ⟨m, hrun, hw, hf⟩ := emulate_cycle_FX55 rand c X hX hpc hhi hlo hidx
    refine ⟨_, hrun, hw, hf, rfl, rfl, ?_⟩
    intro rand2 d hdpc hdhi hdlo hdidx hsame
    obtain ⟨v, hrun2, hv, _⟩ :=
      emulate_cycle_FX65 rand2 d X hX hdpc hdhi hdlo (by rw [hdidx]; exact hidx)
    refine ⟨_, hrun2, ?_⟩
    intro i hi
    show v i = c.V i
    rw [hv i hi, hdidx, hsame i hi]
    exact hw i hi
  · intro hlo
    obtain ⟨v, hrun, hv, hf⟩ := emulate_cycle_FX65 rand c X hX hpc hhi hlo hidx
    exact ⟨_, hrun, hv, hf, rfl, rfl⟩

/-- C14 with X = 2 and idx = 0x300: F255 writes 0x11, 0x22, 0x33 at 0x300 ..
0x302 and leaves 0x303 alone; F265 run on those bytes with every register at
0x99 gives V0, V1, V2 = 0x11, 0x22, 0x33 and leaves V3 = 0x99. -/
theorem registers_FX55_FX65_witness :
    (∃ c', emulate_cycle 0 store_demo = some c' ∧
      c'.memory 0x300 = 0x11 ∧ c'.memory 0x301 = 0x22 ∧ c'.memory 0x302 = 0x33 ∧
      c'.memory 0x303 = 0 ∧
      ∃ d', emulate_cycle 0 fill_demo = some d' ∧
        d'.V 0 = 0x11 ∧ d'.V 1 = 0x22 ∧ d'.V 2 = 0x33) ∧
    (∃ d', emulate_cycle 0 fill_demo = some d' ∧
      d'.V 0 = 0x11 ∧ d'.V 1 = 0x22 ∧ d'.V 2 = 0x33 ∧ d'.V 3 = 0x99) := by
  obtain ⟨c', h, hw, hf, _, _, hback⟩ :=
    (registers_FX55_FX65 0 store_demo 2 (by decide) (by decide) rfl (by decide)).1 rfl
  obtain ⟨d', k, kv, kf, _, _⟩ :=
    (registers_FX55_FX65 0 fill_demo 2 (by decide) (by decide) rfl (by decide)).2 rfl
  have hsame : ∀ i, i ≤ 2 →
      fill_demo.memory (store_demo.idx + i) = c'.memory (store_demo.idx + i) := by
    intro i hi
    rw [hw i hi]
    interval_cases i <;> rfl
  obtain ⟨d2, k2, kv2⟩ := hback 0 fill_demo (by decide) rfl rfl rfl hsame
  exact ⟨⟨c', h, hw 0 (by decide), hw 1 (by decide), hw 2 (by decide),
      hf 0x303 (Or.inr (by decide)),
      d2, k2, kv2 0 (by decide), kv2 1 (by decide), kv2 2 (by decide)⟩,
    ⟨d', k, kv 0 (by decide), kv 1 (by decide), kv 2 (by decide), kf 3 (by decide)⟩⟩

/-! ## The dispatch, one leading nibble at a time -/

theorem execute_group_0 (rand : Nat) (c : chip8_t) (h : c.opcode / 4096 % 16 = 0) :
    execute rand c =
      if c.opcode % 16 = 0 then some { c with display := fun _ => false }
      else if c.opcode % 16 = 14 then
        if (c.sp + 65535) % 65536 < 16 then
          some { c with sp := (c.sp + 65535) % 65536,
                        pc := c.stack ((c.sp + 65535) % 65536) }
        else none
      else some c := by
  unfold execute
  simp [and_F000, and_000F, h]

theorem execute_group_1 (rand : Nat) (c : chip8_t) (h : c.opcode / 4096 % 16 = 1) :
    execute rand c = some { c with pc := c.opcode % 4096 } := by
  unfold execute
  simp [and_F000, and_0FFF, h]

theorem execute_group_2 (rand : Nat) (c : chip8_t) (h : c.opcode / 4096 % 16 = 2) :
    execute rand c =
      if c.sp < 16 then
        some { c with
          stack := store c.stack c.sp c.pc
          sp := (c.sp + 1) % 65536
          pc := c.opcode % 4096 }
      else none := by
  unfold execute
  simp [and_F000, and_0FFF, h]

theorem execute_group_3 (rand : Nat) (c : chip8_t) (h : c.opcode / 4096 % 16 = 3) :
    execute rand c =
      if c.V (c.opcode / 256 % 16) = c.opcode % 256 then
        some { c with pc := (c.pc + 2) % 65536 }
      else some c := by
  unfold execute
  simp [and_F000, and_00FF, X_field, h]

theorem execute_group_4 (rand : Nat) (c : chip8_t) (h : c.opcode / 4096 % 16 = 4) :
    execute rand c =
      if c.V (c.opcode / 256 % 16) ≠ c.opcode % 256 then
        some { c with pc := (c.pc + 2) % 65536 }
      else some c := by
  unfold execute
  simp [and_F000, and_00FF, X_field, h]

theorem execute_group_5 (rand : Nat) (c : chip8_t) (h : c.opcode / 4096 % 16 = 5) :
    execute rand c =
      if c.V (c.opcode / 256 % 16) = c.V (c.opcode / 16 % 16) then
        some { c with pc := (c.pc + 2) % 65536 }
      else some c := by
  unfold execute
  simp [and_F000, X_field, Y_field, h]

theorem execute_group_6 (rand : Nat) (c : chip8_t) (h : c.opcode / 4096 % 16 = 6) :
    execute rand c =
      some { c with V := store c.V (c.opcode / 256 % 16) (c.opcode % 256) } := by
  unfold execute
  simp [and_F000, and_00FF, X_field, h]

theorem execute_group_7 (rand : Nat) (c : chip8_t) (h : c.opcode / 4096 % 16 = 7) :
    execute rand c =
      some { c with
        V := store c.V (c.opcode / 256 % 16)
          ((c.V (c.opcode / 256 % 16) + c.opcode % 256) % 256) } := by
  unfold execute
  simp [and_F000, and_00FF, X_field, h]

theorem execute_group_8 (rand : Nat) (c : chip8_t) (h : c.opcode / 4096 % 16 = 8) :
    ∃ v, execute rand c = some { c with V := v } ∧
      (∀ r, r ≠ c.opcode / 256 % 16 → r ≠ 0xF → v r = c.V r) ∧
      ((c.opcode % 16 = 8 ∨ c.opcode % 16 = 9 ∨ c.opcode % 16 = 10 ∨ c.opcode % 16 = 11 ∨
        c.opcode % 16 = 12 ∨ c.opcode % 16 = 13 ∨ c.opcode % 16 = 15) → v = c.V) := by
  have hN : c.opcode % 16 < 16 := Nat.mod_lt _ (by decide)
  unfold execute
  simp only [and_F000, and_000F, X_field, Y_field, h]
  generalize c.opcode % 16 = N at hN ⊢
  interval_cases N <;> simp <;> exact fun r h1 h2 => by simp [store, h1, h2]

theorem execute_group_9 (rand : Nat) (c : chip8_t) (h : c.opcode / 4096 % 16 = 9) :
    execute rand c =
      if c.V (c.opcode / 256 % 16) ≠ c.V (c.opcode / 16 % 16) then
        some { c with pc := (c.pc + 2) % 65536 }
      else some c := by
  unfold execute
  simp [and_F000, X_field, Y_field, h]

theorem execute_group_A (rand : Nat) (c : chip8_t) (h : c.opcode / 4096 % 16 = 10) :
    execute rand c = some { c with idx := c.opcode % 4096 } := by
  unfold execute
  simp [and_F000, and_0FFF, h]

theorem execute_group_B (rand : Nat) (c : chip8_t) (h : c.opcode / 4096 % 16 = 11) :
    execute rand c = some { c with pc := (c.V 0 + c.opcode % 4096) % 65536 } := by
  unfold execute
  simp [and_F000, and_0FFF, h]

theorem execute_group_C (rand : Nat) (c : chip8_t) (h : c.opcode / 4096 % 16 = 12) :
    execute rand c =
      some { c with V := store c.V (c.opcode / 256 % 16) (rand % 256 &&& c.opcode % 256) } := by
  unfold execute
  simp [and_F000, and_00FF, X_field, h]

theorem execute_group_D (rand : Nat) (c : chip8_t) (h : c.opcode / 4096 % 16 = 13) :
    execute rand c =
      match draw_sprite c.memory c.idx (c.opcode / 256 % 16) (c.opcode / 16 % 16)
          (c.opcode % 16) (store c.V 0xF 0, c.display) with
      | some st => some { c with V := st.1, display := st.2, draw := true }
      | none => none := by
  unfold execute
  simp [and_F000, and_000F, X_field, Y_field, h]

theorem execute_group_E (rand : Nat) (c : chip8_t) (h : c.opcode / 4096 % 16 = 14) :
    execute rand c =
      if c.opcode / 16 % 16 = 9 then
        if c.V (c.opcode / 256 % 16) < 16 then
          if c.keypad (c.V (c.opcode / 256 % 16)) = true then
            some { c with pc := (c.pc + 2) % 65536 }
          else some c
        else none
      else if c.opcode / 16 % 16 = 10 then
        if c.V (c.opcode / 256 % 16) < 16 then
          if c.keypad (c.V (c.opcode / 256 % 16)) = false then
            some { c with pc := (c.pc + 2) % 65536 }
          else some c
        else none
      else some c := by
  have e9 : (16 * (c.opcode / 16 % 16) = 0x90) = (c.opcode / 16 % 16 = 9) := by
    apply propext
    constructor <;> intro h <;> omega
  have eA : (16 * (c.opcode / 16 % 16) = 0xA0) = (c.opcode / 16 % 16 = 10) := by
    apply propext
    constructor <;> intro h <;> omega
  unfold execute
  simp only [and_F000, and_00F0, X_field, h, e9, eA]
  simp

theorem execute_group_F (rand : Nat) (c : chip8_t) (h : c.opcode / 4096 % 16 = 15) :
    execute rand c =
      if c.opcode % 256 = 0x07 then
        some { c with V := store c.V (c.opcode / 256 % 16) c.delay_timer }
      else if c.opcode % 256 = 0x0A then
        if (scan_keypad c.keypad (c.opcode / 256 % 16) c.V).2 = false then
          some { c with
            V := (scan_keypad c.keypad (c.opcode / 256 % 16) c.V).1
            pc := (c.pc + 65534) % 65536 }
        else some { c with V := (scan_keypad c.keypad (c.opcode / 256 % 16) c.V).1 }
      else if c.opcode % 256 = 0x15 then
        some { c with delay_timer := c.V (c.opcode / 256 % 16) }
      else if c.opcode % 256 = 0x18 then
        some { c with sound_timer := c.V (c.opcode / 256 % 16) }
      else if c.opcode % 256 = 0x1E then
        some { c with idx := (c.idx + c.V (c.opcode / 256 % 16)) % 65536 }
      else if c.opcode % 256 = 0x29 then
        some { c with idx := (FONT_START + c.V (c.opcode / 256 % 16) * FONT_HEIGHT) % 65536 }
      else if c.opcode % 256 = 0x33 then
        if c.idx + 2 < MEMORY_SIZE then
          some { c with
            memory := store (store (store c.memory (c.idx + 2) (c.V (c.opcode / 256 % 16) % 10))
              (c.idx + 1) (c.V (c.opcode / 256 % 16) / 10 % 10)) c.idx
              (c.V (c.opcode / 256 % 16) / 10 / 10) }
        else none
      else if c.opcode % 256 = 0x55 then
        match store_registers c.V c.idx (c.opcode / 256 % 16) c.memory with
        | some m => some { c with memory := m }
        | none => none
      else if c.opcode % 256 = 0x65 then
        match load_registers c.memory c.idx (c.opcode / 256 % 16) c.V with
        | some v => some { c with V := v }
        | none => none
      else some c := by
  unfold execute
  simp only [and_F000, and_00FF, X_field, h]
  simp

/-! ## Undocumented instruction words -/

/-- C12 fails as stated: `5121` matches none of the documented patterns, yet
with V[1] = V[2] the step advances PC by 4, because the dispatch of group 5
never looks at the last nibble. -/
theorem undocumented_5XY1_skips :
    documented 0x5121 = false ∧
    ∃ c', emulate_cycle 0 undoc_demo = some c' ∧ c'.opcode = 0x5121 ∧
      c'.pc = undoc_demo.pc + 4 ∧ c'.pc ≠ undoc_demo.pc + 2 :=
  ⟨rfl, _, rfl, rfl, rfl, by decide⟩

/-- The undocumented words that reach a default branch of the dispatch
(8XY8 .. 8XYD, 8XYF, EXYk with Y neither 9 nor A, FXkk with kk outside the
nine documented values) advance PC by exactly 2, latch the opcode and change
nothing else. -/
theorem undocumented_noop (rand : Nat) (c : chip8_t) (hi lo : Nat)
    (hhi256 : hi < 256) (hlo256 : lo < 256) (hpc : c.pc + 1 < MEMORY_SIZE)
    (hhi : c.memory c.pc = hi) (hlo : c.memory (c.pc + 1) = lo)
    (hundoc : documented (256 * hi + lo) = false)
    (h5 : hi / 16 ≠ 5) (h9 : hi / 16 ≠ 9)
    (hE : hi / 16 = 0xE → lo / 16 ≠ 9 ∧ lo / 16 ≠ 0xA) :
    emulate_cycle rand c = some { c with opcode := 256 * hi + lo, pc := c.pc + 2 } := by
  rw [emulate_cycle_fetch rand c hi lo hpc hhi hlo hhi256 hlo256]
  obtain ⟨g, hg⟩ : ∃ g, (256 * hi + lo) / 4096 % 16 = g := ⟨_, rfl⟩
  have hg16 : g < 16 := by omega
  have hN : (256 * hi + lo) % 16 = lo % 16 := by omega
  have hNN : (256 * hi + lo) % 256 = lo := by omega
  have hY : (256 * hi + lo) / 16 % 16 = lo / 16 := by omega
  have hgh : hi / 16 = g := by omega
  rw [hgh] at h5 h9 hE
  unfold documented at hundoc
  rw [hg, hN, hNN] at hundoc
  interval_cases g <;> simp at hundoc <;>
    first
    | exact absurd rfl h5
    | exact absurd rfl h9
    | skip
  · -- group 8
    obtain ⟨v, hrun, _, hv⟩ :=
      execute_group_8 rand { c with opcode := 256 * hi + lo, pc := c.pc + 2 } hg
    have hk : (256 * hi + lo) % 16 = 8 ∨ (256 * hi + lo) % 16 = 9 ∨
        (256 * hi + lo) % 16 = 10 ∨ (256 * hi + lo) % 16 = 11 ∨
        (256 * hi + lo) % 16 = 12 ∨ (256 * hi + lo) % 16 = 13 ∨
        (256 * hi + lo) % 16 = 15 := by
      omega
    rw [hrun, hv hk]
  · -- group E
    have hEY := hE rfl
    rw [execute_group_E rand _ hg]
    simp only [hY, hEY.1, hEY.2, if_false]
  · -- group F
    rw [execute_group_F rand _ hg]
    simp only [hNN]
    simp [hundoc]

/-- C12 as amended: every instruction word that matches none of the 35
documented patterns latches the opcode and changes nothing else but PC, which
advances by exactly 2, except that it advances by 4 when the word is 5XYk
with V[X] = V[Y], 9XYk with V[X] ≠ V[Y], EX9k with key V[X] pressed, or EXAk
with key V[X] not pressed (for EX9k and EXAk, V[X] < 16 so that the keypad
read is in bounds). -/
theorem undocumented_step (rand : Nat) (c : chip8_t) (hi lo : Nat)
    (hhi256 : hi < 256) (hlo256 : lo < 256) (hpc : c.pc + 1 < MEMORY_SIZE)
    (hhi : c.memory c.pc = hi) (hlo : c.memory (c.pc + 1) = lo)
    (hundoc : documented (256 * hi + lo) = false)
    (hkey : hi / 16 = 0xE → lo / 16 = 9 ∨ lo / 16 = 0xA → c.V (hi % 16) < 16) :
    emulate_cycle rand c = some { c with
      opcode := 256 * hi + lo
      pc := c.pc +
        (if (hi / 16 = 5 ∧ c.V (hi % 16) = c.V (lo / 16)) ∨
            (hi / 16 = 9 ∧ c.V (hi % 16) ≠ c.V (lo / 16)) ∨
            (hi / 16 = 0xE ∧ lo / 16 = 9 ∧ c.keypad (c.V (hi % 16)) = true) ∨
            (hi / 16 = 0xE ∧ lo / 16 = 0xA ∧ c.keypad (c.V (hi % 16)) = false)
          then 4 else 2) } := by
  have hg : (256 * hi + lo) / 4096 % 16 = hi / 16 := by omega
  have hXf : (256 * hi + lo) / 256 % 16 = hi % 16 := by omega
  have hYf : (256 * hi + lo) / 16 % 16 = lo / 16 := by omega
  have hmod : (c.pc + 2 + 2) % 65536 = c.pc + 4 := by
    simp only [MEMORY_SIZE] at hpc
    omega
  by_cases h5 : hi / 16 = 5
  · rw [emulate_cycle_fetch rand c hi lo hpc hhi hlo hhi256 hlo256,
      execute_group_5 rand _ (by rw [← h5]; exact hg)]
    simp only [hXf, hYf, hmod]
    by_cases hv : c.V (hi % 16) = c.V (lo / 16)
    · rw [if_pos hv, if_pos (Or.inl ⟨h5, hv⟩)]
    · have hP : ¬ ((hi / 16 = 5 ∧ c.V (hi % 16) = c.V (lo / 16)) ∨
          (hi / 16 = 9 ∧ c.V (hi % 16) ≠ c.V (lo / 16)) ∨
          (hi / 16 = 0xE ∧ lo / 16 = 9 ∧ c.keypad (c.V (hi % 16)) = true) ∨
          (hi / 16 = 0xE ∧ lo / 16 = 0xA ∧ c.keypad (c.V (hi % 16)) = false)) := by
        rintro (⟨_, h⟩ | ⟨h, _⟩ | ⟨h, _⟩ | ⟨h, _⟩)
        · exact hv h
        · omega
        · omega
        · omega
      rw [if_neg hv, if_neg hP]
  by_cases h9 : hi / 16 = 9
  · rw [emulate_cycle_fetch rand c hi lo hpc hhi hlo hhi256 hlo256,
      execute_group_9 rand _ (by rw [← h9]; exact hg)]
    simp only [hXf, hYf, hmod]
    by_cases hv : c.V (hi % 16) ≠ c.V (lo / 16)
    · rw [if_pos hv, if_pos (Or.inr (Or.inl ⟨h9, hv⟩))]
    · have hP : ¬ ((hi / 16 = 5 ∧ c.V (hi % 16) = c.V (lo / 16)) ∨
          (hi / 16 = 9 ∧ c.V (hi % 16) ≠ c.V (lo / 16)) ∨
          (hi / 16 = 0xE ∧ lo / 16 = 9 ∧ c.keypad (c.V (hi % 16)) = true) ∨
          (hi / 16 = 0xE ∧ lo / 16 = 0xA ∧ c.keypad (c.V (hi % 16)) = false)) := by
        rintro (⟨h, _⟩ | ⟨_, h⟩ | ⟨h, _⟩ | ⟨h, _⟩)
        · omega
        · exact hv h
        · omega
        · omega
      rw [if_neg hv, if_neg hP]
  by_cases hE9 : hi / 16 = 0xE ∧ lo / 16 = 9
  · have hV := hkey hE9.1 (Or.inl hE9.2)
    rw [emulate_cycle_fetch rand c hi lo hpc hhi hlo hhi256 hlo256,
      execute_group_E rand _ (by rw [← hE9.1]; exact hg)]
    simp only [hXf, hYf, hmod]
    rw [if_pos hE9.2, if_pos hV]
    by_cases hk : c.keypad (c.V (hi % 16)) = true
    · rw [if_pos hk, if_pos (Or.inr (Or.inr (Or.inl ⟨hE9.1, hE9.2, hk⟩)))]
    · have hP : ¬ ((hi / 16 = 5 ∧ c.V (hi % 16) = c.V (lo / 16)) ∨
          (hi / 16 = 9 ∧ c.V (hi % 16) ≠ c.V (lo / 16)) ∨
          (hi / 16 = 0xE ∧ lo / 16 = 9 ∧ c.keypad (c.V (hi % 16)) = true) ∨
          (hi / 16 = 0xE ∧ lo / 16 = 0xA ∧ c.keypad (c.V (hi % 16)) = false)) := by
        rintro (⟨h, _⟩ | ⟨h, _⟩ | ⟨_, _, h⟩ | ⟨_, h, _⟩)
        · omega
        · omega
        · exact hk h
        · omega
      rw [if_neg hk, if_neg hP]
  by_cases hEA : hi / 16 = 0xE ∧ lo / 16 = 0xA
  · have hV := hkey hEA.1 (Or.inr hEA.2)
    have hn9 : ¬ lo / 16 = 9 := by omega
    rw [emulate_cycle_fetch rand c hi lo hpc hhi hlo hhi256 hlo256,
      execute_group_E rand _ (by rw [← hEA.1]; exact hg)]
    simp only [hXf, hYf, hmod]
    rw [if_neg hn9, if_pos hEA.2, if_pos hV]
    by_cases hk : c.keypad (c.V (hi % 16)) = false
    · rw [if_pos hk, if_pos (Or.inr (Or.inr (Or.inr ⟨hEA.1, hEA.2, hk⟩)))]
    · have hP : ¬ ((hi / 16 = 5 ∧ c.V (hi % 16) = c.V (lo / 16)) ∨
          (hi / 16 = 9 ∧ c.V (hi % 16) ≠ c.V (lo / 16)) ∨
          (hi / 16 = 0xE ∧ lo / 16 = 9 ∧ c.keypad (c.V (hi % 16)) = true) ∨
          (hi / 16 = 0xE ∧ lo / 16 = 0xA ∧ c.keypad (c.V (hi % 16)) = false)) := by
        rintro (⟨h, _⟩ | ⟨h, _⟩ | ⟨_, h, _⟩ | ⟨_, _, h⟩)
        · omega
        · omega
        · omega
        · exact hk h
      rw [if_neg hk, if_neg hP]
  have hP : ¬ ((hi / 16 = 5 ∧ c.V (hi % 16) = c.V (lo / 16)) ∨
      (hi / 16 = 9 ∧ c.V (hi % 16) ≠ c.V (lo / 16)) ∨
      (hi / 16 = 0xE ∧ lo / 16 = 9 ∧ c.keypad (c.V (hi % 16)) = true) ∨
      (hi / 16 = 0xE ∧ lo / 16 = 0xA ∧ c.keypad (c.V (hi % 16)) = false)) := by
    rintro (⟨h, _⟩ | ⟨h, _⟩ | ⟨h1, h2, _⟩ | ⟨h1, h2, _⟩)
    · exact h5 h
    · exact h9 h
    · exact hE9 ⟨h1, h2⟩
    · exact hEA ⟨h1, h2⟩
  rw [if_neg hP]
  exact undocumented_noop rand c hi lo hhi256 hlo256 hpc hhi hlo hundoc h5 h9
    (fun h => ⟨fun k => hE9 ⟨h, k⟩, fun k => hEA ⟨h, k⟩⟩)

/-- C12 as amended, on four undocumented words: `812F` and `9115` (X = Y)
advance PC from 0x200 to 0x202, `5121` with V1 = V2 and `E190` with key
V1 = 5 pressed advance it to 0x204; in each case the opcode is latched and
the registers are as before. -/
theorem undocumented_step_witness :
    (∃ c', emulate_cycle 0 noop_demo = some c' ∧ c'.pc = 0x202 ∧ c'.opcode = 0x812F ∧
      c'.V = noop_demo.V ∧ c'.memory = noop_demo.memory ∧ c'.display = noop_demo.display) ∧
    (∃ c', emulate_cycle 0 undoc9_demo = some c' ∧ c'.pc = 0x202 ∧ c'.opcode = 0x9115 ∧
      c'.V = undoc9_demo.V) ∧
    (∃ c', emulate_cycle 0 undoc_demo = some c' ∧ c'.pc = 0x204 ∧ c'.opcode = 0x5121 ∧
      c'.V = undoc_demo.V) ∧
    (∃ c', emulate_cycle 0 undocE_demo = some c' ∧ c'.pc = 0x204 ∧ c'.opcode = 0xE190 ∧
      c'.V = undocE_demo.V ∧ c'.keypad = undocE_demo.keypad) :=
  ⟨⟨_, undocumented_step 0 noop_demo 0x81 0x2F (by decide) (by decide) (by decide) rfl rfl rfl
      (fun h => absurd h (by decide)), rfl, rfl, rfl, rfl, rfl⟩,
    ⟨_, undocumented_step 0 undoc9_demo 0x91 0x15 (by decide) (by decide) (by decide) rfl rfl
      rfl (fun h => absurd h (by decide)), rfl, rfl, rfl⟩,
    ⟨_, undocumented_step 0 undoc_demo 0x51 0x21 (by decide) (by decide) (by decide) rfl rfl
      rfl (fun h => absurd h (by decide)), rfl, rfl, rfl⟩,
    ⟨_, undocumented_step 0 undocE_demo 0xE1 0x90 (by decide) (by decide) (by decide) rfl rfl
      rfl (fun _ _ => by decide), rfl, rfl, rfl, rfl⟩⟩

/-- Group F touches neither the stack nor the keypad, run mode, display or
draw flag, and moves the program counter only to rewind it. -/
theorem execute_group_F_frame (rand : Nat) (c0 c' : chip8_t)
    (hg : c0.opcode / 4096 % 16 = 15) (h : execute rand c0 = some c') :
    c'.sp = c0.sp ∧ c'.stack = c0.stack ∧ c'.keypad = c0.keypad ∧ c'.state = c0.state ∧
    c'.display = c0.display ∧ c'.draw = c0.draw ∧ c'.opcode = c0.opcode ∧
    (c'.pc = c0.pc ∨ c'.pc = (c0.pc + 65534) % 65536) := by
  rw [execute_group_F rand c0 hg] at h
  by_cases k1 : c0.opcode % 256 = 0x07
  · simp only [k1] at h
    simp at h
    subst h
    simp
  by_cases k2 : c0.opcode % 256 = 0x0A
  · simp only [k2] at h
    simp at h
    by_cases hk : (scan_keypad c0.keypad (c0.opcode / 256 % 16) c0.V).2 = true
    · simp only [hk] at h
      simp at h
      subst h
      simp
    · simp only [hk] at h
      simp at h
      subst h
      simp
  by_cases k3 : c0.opcode % 256 = 0x15
  · simp only [k3] at h
    simp at h
    subst h
    simp
  by_cases k4 : c0.opcode % 256 = 0x18
  · simp only [k4] at h
    simp at h
    subst h
    simp
  by_cases k5 : c0.opcode % 256 = 0x1E
  · simp only [k5] at h
    simp at h
    subst h
    simp
  by_cases k6 : c0.opcode % 256 = 0x29
  · simp only [k6] at h
    simp at h
    subst h
    simp
  by_cases k7 : c0.opcode % 256 = 0x33
  · simp only [k7] at h
    simp at h
    obtain ⟨_, h⟩ := h
    subst h
    simp
  by_cases k8 : c0.opcode % 256 = 0x55
  · simp only [k8] at h
    simp at h
    split at h <;> cases h
    simp
  by_cases k9 : c0.opcode % 256 = 0x65
  · simp only [k9] at h
    simp at h
    split at h <;> cases h
    simp
  simp [k1, k2, k3, k4, k5, k6, k7, k8, k9] at h
  subst h
  simp

/-- What a defined step of the dispatch can do to the stack pointer. -/
theorem execute_sp (rand : Nat) (c0 c' : chip8_t) (h : execute rand c0 = some c') :
    c'.sp = c0.sp ∨
    (c0.opcode / 4096 % 16 = 2 ∧ c0.sp < 16 ∧ c'.sp = (c0.sp + 1) % 65536) ∨
    (c0.opcode / 4096 % 16 = 0 ∧ c0.opcode % 16 = 14 ∧ (c0.sp + 65535) % 65536 < 16 ∧
      c'.sp = (c0.sp + 65535) % 65536) := by
  obtain ⟨g, hg⟩ : ∃ g, c0.opcode / 4096 % 16 = g := ⟨_, rfl⟩
  have hg16 : g < 16 := by omega
  interval_cases g
  · rw [execute_group_0 rand c0 hg] at h
    split_ifs at h <;> cases h <;> simp [*]
  · rw [execute_group_1 rand c0 hg] at h
    cases h
    simp [hg]
  · rw [execute_group_2 rand c0 hg] at h
    split_ifs at h
    cases h
    simp [*]
  · rw [execute_group_3 rand c0 hg] at h
    split_ifs at h <;> cases h <;> simp
  · rw [execute_group_4 rand c0 hg] at h
    split_ifs at h <;> cases h <;> simp
  · rw [execute_group_5 rand c0 hg] at h
    split_ifs at h <;> cases h <;> simp
  · rw [execute_group_6 rand c0 hg] at h
    cases h
    simp
  · rw [execute_group_7 rand c0 hg] at h
    cases h
    simp
  · obtain ⟨v, hrun, _⟩ := execute_group_8 rand c0 hg
    rw [hrun] at h
    cases h
    simp
  · rw [execute_group_9 rand c0 hg] at h
    split_ifs at h <;> cases h <;> simp
  · rw [execute_group_A rand c0 hg] at h
    cases h
    simp
  · rw [execute_group_B rand c0 hg] at h
    cases h
    simp [hg]
  · rw [execute_group_C rand c0 hg] at h
    cases h
    simp
  · rw [execute_group_D rand c0 hg] at h
    split at h <;> cases h
    simp
  · rw [execute_group_E rand c0 hg] at h
    split_ifs at h <;> cases h <;> simp
  · obtain ⟨h1, _⟩ := execute_group_F_frame rand c0 c' hg h
    exact Or.inl h1

/-- What a defined step of the dispatch can do to the program counter. -/
theorem execute_pc (rand : Nat) (c0 c' : chip8_t) (h : execute rand c0 = some c') :
    c'.pc = c0.pc ∨ c'.pc = (c0.pc + 2) % 65536 ∨ c'.pc = (c0.pc + 65534) % 65536 ∨
    ((c0.opcode / 4096 % 16 = 1 ∨ c0.opcode / 4096 % 16 = 2) ∧ c'.pc = c0.opcode % 4096) ∨
    (c0.opcode / 4096 % 16 = 11 ∧ c'.pc = (c0.V 0 + c0.opcode % 4096) % 65536) ∨
    (c0.opcode / 4096 % 16 = 0 ∧ c0.opcode % 16 = 14 ∧ (c0.sp + 65535) % 65536 < 16 ∧
      c'.pc = c0.stack ((c0.sp + 65535) % 65536)) := by
  obtain ⟨g, hg⟩ : ∃ g, c0.opcode / 4096 % 16 = g := ⟨_, rfl⟩
  have hg16 : g < 16 := by omega
  interval_cases g
  · rw [execute_group_0 rand c0 hg] at h
    split_ifs at h <;> cases h <;> simp [*]
  · rw [execute_group_1 rand c0 hg] at h
    cases h
    simp [hg]
  · rw [execute_group_2 rand c0 hg] at h
    split_ifs at h
    cases h
    simp [*]
  · rw [execute_group_3 rand c0 hg] at h
    split_ifs at h <;> cases h <;> simp
  · rw [execute_group_4 rand c0 hg] at h
    split_ifs at h <;> cases h <;> simp
  · rw [execute_group_5 rand c0 hg] at h
    split_ifs at h <;> cases h <;> simp
  · rw [execute_group_6 rand c0 hg] at h
    cases h
    simp
  · rw [execute_group_7 rand c0 hg] at h
    cases h
    simp
  · obtain ⟨v, hrun, _⟩ := execute_group_8 rand c0 hg
    rw [hrun] at h
    cases h
    simp
  · rw [execute_group_9 rand c0 hg] at h
    split_ifs at h <;> cases h <;> simp
  · rw [execute_group_A rand c0 hg] at h
    cases h
    simp
  · rw [execute_group_B rand c0 hg] at h
    cases h
    simp [hg]
  · rw [execute_group_C rand c0 hg] at h
    cases h
    simp
  · rw [execute_group_D rand c0 hg] at h
    split at h <;> cases h
    simp
  · rw [execute_group_E rand c0 hg] at h
    split_ifs at h <;> cases h <;> simp
  · obtain ⟨_, _, _, _, _, _, _, h1⟩ := execute_group_F_frame rand c0 c' hg h
    rcases h1 with h1 | h1
    · exact Or.inl h1
    · exact Or.inr (Or.inr (Or.inl h1))

/-! ## Program counter -/

/-- C19 fails as stated: on a freshly booted machine (PC = 0x200, even and
inside memory) whose program starts with `1201`, one step leaves PC = 0x201,
an odd address. -/
theorem jump_to_odd_address :
    jump_odd_demo.pc % 2 = 0 ∧ jump_odd_demo.pc < 4096 ∧
    ∃ c', emulate_cycle 0 jump_odd_demo = some c' ∧ c'.pc = 0x201 ∧ c'.pc % 2 = 1 :=
  ⟨rfl, by decide, _, rfl, rfl, rfl⟩

/-- C19 as amended: from a state whose PC is even with PC + 4 < 4096, a step
that makes no out-of-bounds access leaves PC even and below 4096, provided
the instruction does not send it elsewhere: for 1NNN and 2NNN the target NNN
is even, for BNNN the target V[0] + NNN is even and below 4096, and for a
return the popped slot stack[sp-1] is even and below 4096. -/
theorem pc_invariant_amended (rand : Nat) (c c' : chip8_t) (hi lo : Nat)
    (hhi256 : hi < 256) (hlo256 : lo < 256)
    (heven : c.pc % 2 = 0) (hpc : c.pc + 4 < 4096) (hsp : c.sp ≤ 16)
    (hhi : c.memory c.pc = hi) (hlo : c.memory (c.pc + 1) = lo)
    (hjump : hi / 16 = 1 ∨ hi / 16 = 2 → lo % 2 = 0)
    (hB : hi / 16 = 0xB →
      (c.V 0 + (256 * (hi % 16) + lo)) % 2 = 0 ∧ c.V 0 + (256 * (hi % 16) + lo) < 4096)
    (hret : hi / 16 = 0 → lo % 16 = 0xE →
      c.stack (c.sp - 1) % 2 = 0 ∧ c.stack (c.sp - 1) < 4096)
    (hstep : emulate_cycle rand c = some c') :
    c'.pc % 2 = 0 ∧ c'.pc < 4096 := by
  rw [emulate_cycle_fetch rand c hi lo (by simp only [MEMORY_SIZE]; omega) hhi hlo hhi256
    hlo256] at hstep
  have hcases := execute_pc rand _ c' hstep
  simp only at hcases
  have hg : (256 * hi + lo) / 4096 % 16 = hi / 16 := by omega
  have hNNN : (256 * hi + lo) % 4096 = 256 * (hi % 16) + lo := by omega
  have hN : (256 * hi + lo) % 16 = lo % 16 := by omega
  rw [hg, hNNN, hN] at hcases
  rcases hcases with h | h | h | ⟨hj, h⟩ | ⟨hb, h⟩ | ⟨h0, hE, hidx, h⟩
  · omega
  · omega
  · omega
  · have := hjump hj
    omega
  · have := hB hb
    omega
  · have hpop : (c.sp + 65535) % 65536 = c.sp - 1 := by omega
    rw [hpop] at h
    rw [h]
    exact hret h0 hE

/-- C19 as amended, on `1208` at 0x200 of a freshly booted machine: the step
is defined and leaves PC = 0x208, even and below 4096. -/
theorem pc_invariant_amended_witness :
    ∃ c', emulate_cycle 0 jump_even_demo = some c' ∧ c'.pc = 0x208 ∧
      c'.pc % 2 = 0 ∧ c'.pc < 4096 :=
  ⟨_, rfl, rfl,
    pc_invariant_amended 0 jump_even_demo _ 0x12 0x08 (by decide) (by decide) rfl (by decide)
      (by decide) rfl rfl (fun _ => rfl) (fun h => absurd h (by decide))
      (fun h => absurd h (by decide)) rfl⟩

/-! ## Stack pointer -/

/-- C20 fails as stated: the call `2204` run with sp = 15 writes stack[15]
and leaves sp = 16, outside [0,16); and the return `00EE` run with sp = 0
indexes the stack at 65535, outside the array (the step is undefined). -/
theorem call_at_sp_15_leaves_16 :
    call15_demo.sp < 16 ∧
    (∃ c', emulate_cycle 0 call15_demo = some c' ∧ c'.sp = 16 ∧ ¬ c'.sp < 16) ∧
    ret0_demo.sp = 0 ∧ (ret0_demo.sp + 65535) % 65536 = 65535 ∧
    emulate_cycle 0 ret0_demo = none :=
  ⟨by decide, ⟨_, rfl, rfl, by decide⟩, rfl, rfl, rfl⟩

/-- C20 as amended: from a state with sp < 16, a call 2NNN writes stack[sp],
in bounds, and leaves sp + 1 (which is 16 when sp = 15); a return with sp > 0
reads stack[sp-1], in bounds, and leaves sp - 1; a return with sp = 0 indexes
the stack out of bounds; every other instruction whose step is defined leaves
sp unchanged.  So sp after a defined step is at most 16, and below 16 unless
the step was a call at sp = 15. -/
theorem sp_invariant_amended (rand : Nat) (c : chip8_t) (hi lo : Nat)
    (hhi256 : hi < 256) (hlo256 : lo < 256) (hsp : c.sp < 16)
    (hpc : c.pc + 1 < MEMORY_SIZE)
    (hhi : c.memory c.pc = hi) (hlo : c.memory (c.pc + 1) = lo) :
    (hi / 16 = 2 →
      ∃ c', emulate_cycle rand c = some c' ∧ c'.sp = c.sp + 1 ∧
        c'.stack c.sp = c.pc + 2 ∧ (∀ s, s ≠ c.sp → c'.stack s = c.stack s)) ∧
    (hi / 16 = 0 → lo % 16 = 0xE →
      (0 < c.sp → ∃ c', emulate_cycle rand c = some c' ∧ c'.sp = c.sp - 1 ∧
        c'.pc = c.stack (c.sp - 1) ∧ c'.stack = c.stack) ∧
      (c.sp = 0 → emulate_cycle rand c = none)) ∧
    (hi / 16 ≠ 2 → ¬ (hi / 16 = 0 ∧ lo % 16 = 0xE) →
      ∀ c', emulate_cycle rand c = some c' → c'.sp = c.sp) ∧
    (∀ c', emulate_cycle rand c = some c' →
      c'.sp < 16 ∨ (hi / 16 = 2 ∧ c.sp = 15 ∧ c'.sp = 16)) := by
  rw [emulate_cycle_fetch rand c hi lo hpc hhi hlo hhi256 hlo256]
  have hg : (256 * hi + lo) / 4096 % 16 = hi / 16 := by omega
  have hN : (256 * hi + lo) % 16 = lo % 16 := by omega
  have hall : ∀ c', execute rand { c with opcode := 256 * hi + lo, pc := c.pc + 2 } = some c' →
      c'.sp = c.sp ∨ (hi / 16 = 2 ∧ c'.sp = c.sp + 1) ∨
      (hi / 16 = 0 ∧ lo % 16 = 14 ∧ 0 < c.sp ∧ c'.sp = c.sp - 1) := by
    intro c' h
    have hcases := execute_sp rand _ c' h
    simp only at hcases
    rw [hg, hN] at hcases
    rcases hcases with h1 | ⟨h2, _, h3⟩ | ⟨h0, hE, hidx, h3⟩
    · exact Or.inl h1
    · exact Or.inr (Or.inl ⟨h2, by omega⟩)
    · exact Or.inr (Or.inr ⟨h0, hE, by omega, by omega⟩)
  refine ⟨?_, ?_, ?_, ?_⟩
  · intro h2
    rw [execute_group_2 rand _ (by rw [← h2]; exact hg)]
    have h1 : (c.sp + 1) % 65536 = c.sp + 1 := by omega
    simp only [if_pos hsp, h1]
    exact ⟨_, rfl, rfl, store_same _ _ _, fun s hs => store_other _ _ _ _ hs⟩
  · intro h0 hE
    rw [execute_group_0 rand _ (by rw [← h0]; exact hg)]
    have hne : ¬ (256 * hi + lo) % 16 = 0 := by omega
    have he : (256 * hi + lo) % 16 = 14 := by omega
    simp only [if_neg hne, if_pos he]
    constructor
    · intro hpos
      have h1 : (c.sp + 65535) % 65536 = c.sp - 1 := by omega
      have h2 : c.sp - 1 < 16 := by omega
      simp only [h1, if_pos h2]
      exact ⟨_, rfl, rfl, rfl, rfl⟩
    · intro hz
      have h2 : ¬ (c.sp + 65535) % 65536 < 16 := by omega
      simp only [if_neg h2]
  · intro hn2 hnret c' h
    rcases hall c' h with h1 | ⟨h2, _⟩ | ⟨h0, hE, _⟩
    · exact h1
    · exact absurd h2 hn2
    · exact absurd ⟨h0, hE⟩ hnret
  · intro c' h
    rcases hall c' h with h1 | ⟨h2, h3⟩ | ⟨h0, hE, hpos, h3⟩
    · left
      omega
    · by_cases h15 : c.sp = 15
      · right
        exact ⟨h2, h15, by omega⟩
      · left
        omega
    · left
      omega

/-- C20 as amended, on the call `2204` run with sp = 3: the step writes
stack[3] = 0x202 and leaves sp = 4. -/
theorem sp_invariant_amended_witness :
    ∃ c', emulate_cycle 0 call_demo = some c' ∧ c'.sp = 4 ∧ c'.stack 3 = 0x202 ∧ c'.sp < 16 := by
  obtain ⟨c', h, h1, h2, _⟩ :=
    (sp_invariant_amended 0 call_demo 0x22 0x04 (by decide) (by decide) (by decide) (by decide)
      rfl rfl).1 rfl
  exact ⟨c', h, h1, h2, by rw [h1]; decide⟩

/-! ## Frames of the dispatch -/

theorem execute_group_8_eq (rand : Nat) (c : chip8_t) (h : c.opcode / 4096 % 16 = 8) :
    execute rand c =
      if c.opcode % 16 = 0 then
        some { c with V := store c.V (c.opcode / 256 % 16) (c.V (c.opcode / 16 % 16)) }
      else if c.opcode % 16 = 1 then
        some { c with
          V := store c.V (c.opcode / 256 % 16)
            (c.V (c.opcode / 256 % 16) ||| c.V (c.opcode / 16 % 16)) }
      else if c.opcode % 16 = 2 then
        some { c with
          V := store c.V (c.opcode / 256 % 16)
            (c.V (c.opcode / 256 % 16) &&& c.V (c.opcode / 16 % 16)) }
      else if c.opcode % 16 = 3 then
        some { c with
          V := store c.V (c.opcode / 256 % 16)
            (c.V (c.opcode / 256 % 16) ^^^ c.V (c.opcode / 16 % 16)) }
      else if c.opcode % 16 = 4 then
        some { c with
          V := store
            (store c.V 0xF
              (if c.V (c.opcode / 256 % 16) + c.V (c.opcode / 16 % 16) > 0xFF then 1 else 0))
            (c.opcode / 256 % 16)
            ((store c.V 0xF
                (if c.V (c.opcode / 256 % 16) + c.V (c.opcode / 16 % 16) > 0xFF then 1 else 0)
                (c.opcode / 256 % 16) +
              store c.V 0xF
                (if c.V (c.opcode / 256 % 16) + c.V (c.opcode / 16 % 16) > 0xFF then 1 else 0)
                (c.opcode / 16 % 16)) % 256) }
      else if c.opcode % 16 = 5 ∨ c.opcode % 16 = 6 ∨ c.opcode % 16 = 7 ∨
          c.opcode % 16 = 14 then
        execute rand c
      else some c := by
  have hN : c.opcode % 16 < 16 := Nat.mod_lt _ (by decide)
  by_cases h5 : c.opcode % 16 = 5 ∨ c.opcode % 16 = 6 ∨ c.opcode % 16 = 7 ∨ c.opcode % 16 = 14
  · have n0 : c.opcode % 16 ≠ 0 := by omega
    have n1 : c.opcode % 16 ≠ 1 := by omega
    have n2 : c.opcode % 16 ≠ 2 := by omega
    have n3 : c.opcode % 16 ≠ 3 := by omega
    have n4 : c.opcode % 16 ≠ 4 := by omega
    simp only [if_neg n0, if_neg n1, if_neg n2, if_neg n3, if_neg n4, if_pos h5]
  · simp only [if_neg h5]
    unfold execute
    simp only [and_F000, and_000F, X_field, Y_field, h]
    generalize c.opcode % 16 = N at hN h5 ⊢
    interval_cases N <;> simp at h5 ⊢

/-- No case of the dispatch assigns the keypad or the run mode. -/
theorem execute_keypad_state (rand : Nat) (c0 c' : chip8_t) (h : execute rand c0 = some c') :
    c'.keypad = c0.keypad ∧ c'.state = c0.state := by
  obtain ⟨g, hg⟩ : ∃ g, c0.opcode / 4096 % 16 = g := ⟨_, rfl⟩
  have hg16 : g < 16 := by omega
  interval_cases g
  · rw [execute_group_0 rand c0 hg] at h
    split_ifs at h <;> cases h <;> simp
  · rw [execute_group_1 rand c0 hg] at h
    cases h
    simp
  · rw [execute_group_2 rand c0 hg] at h
    split_ifs at h
    cases h
    simp
  · rw [execute_group_3 rand c0 hg] at h
    split_ifs at h <;> cases h <;> simp
  · rw [execute_group_4 rand c0 hg] at h
    split_ifs at h <;> cases h <;> simp
  · rw [execute_group_5 rand c0 hg] at h
    split_ifs at h <;> cases h <;> simp
  · rw [execute_group_6 rand c0 hg] at h
    cases h
    simp
  · rw [execute_group_7 rand c0 hg] at h
    cases h
    simp
  · obtain ⟨v, hrun, _⟩ := execute_group_8 rand c0 hg
    rw [hrun] at h
    cases h
    simp
  · rw [execute_group_9 rand c0 hg] at h
    split_ifs at h <;> cases h <;> simp
  · rw [execute_group_A rand c0 hg] at h
    cases h
    simp
  · rw [execute_group_B rand c0 hg] at h
    cases h
    simp
  · rw [execute_group_C rand c0 hg] at h
    cases h
    simp
  · rw [execute_group_D rand c0 hg] at h
    split at h <;> cases h
    simp
  · rw [execute_group_E rand c0 hg] at h
    split_ifs at h <;> cases h <;> simp
  · obtain ⟨_, _, h1, h2, _⟩ := execute_group_F_frame rand c0 c' hg h
    exact ⟨h1, h2⟩

/-- Outside the key skips of group E and the key wait `FX0A`, the dispatch
does not look at the keypad. -/
theorem execute_keypad_irrelevant (rand : Nat) (c0 : chip8_t) (k : Nat → Bool)
    (hE : ¬ (c0.opcode / 4096 % 16 = 14 ∧
      (c0.opcode / 16 % 16 = 9 ∨ c0.opcode / 16 % 16 = 10)))
    (hF : ¬ (c0.opcode / 4096 % 16 = 15 ∧ c0.opcode % 256 = 0x0A)) :
    execute rand { c0 with keypad := k } =
      (execute rand c0).map (fun c' => { c' with keypad := k }) := by
  obtain ⟨g, hg⟩ : ∃ g, c0.opcode / 4096 % 16 = g := ⟨_, rfl⟩
  have hg16 : g < 16 := by omega
  have hg' : ({ c0 with keypad := k } : chip8_t).opcode / 4096 % 16 = g := hg
  interval_cases g
  · rw [execute_group_0 rand c0 hg, execute_group_0 rand _ hg']
    split_ifs <;> rfl
  · rw [execute_group_1 rand c0 hg, execute_group_1 rand _ hg']
    rfl
  · rw [execute_group_2 rand c0 hg, execute_group_2 rand _ hg']
    split_ifs <;> rfl
  · rw [execute_group_3 rand c0 hg, execute_group_3 rand _ hg']
    split_ifs <;> rfl
  · rw [execute_group_4 rand c0 hg, execute_group_4 rand _ hg']
    split_ifs <;> rfl
  · rw [execute_group_5 rand c0 hg, execute_group_5 rand _ hg']
    split_ifs <;> rfl
  · rw [execute_group_6 rand c0 hg, execute_group_6 rand _ hg']
    rfl
  · rw [execute_group_7 rand c0 hg, execute_group_7 rand _ hg']
    rfl
  · have hN : c0.opcode % 16 < 16 := Nat.mod_lt _ (by decide)
    unfold execute
    simp only [and_F000, and_000F, X_field, Y_field, hg]
    generalize c0.opcode % 16 = N at hN ⊢
    interval_cases N <;> simp
  · rw [execute_group_9 rand c0 hg, execute_group_9 rand _ hg']
    split_ifs <;> rfl
  · rw [execute_group_A rand c0 hg, execute_group_A rand _ hg']
    rfl
  · rw [execute_group_B rand c0 hg, execute_group_B rand _ hg']
    rfl
  · rw [execute_group_C rand c0 hg, execute_group_C rand _ hg']
    rfl
  · rw [execute_group_D rand c0 hg, execute_group_D rand _ hg']
    show (match draw_sprite c0.memory c0.idx _ _ _ (store c0.V 0xF 0, c0.display) with
      | some st => _ | none => _) = _
    cases draw_sprite c0.memory c0.idx (c0.opcode / 256 % 16) (c0.opcode / 16 % 16)
      (c0.opcode % 16) (store c0.V 0xF 0, c0.display) <;> rfl
  · have h9 : ¬ c0.opcode / 16 % 16 = 9 := fun h => hE ⟨hg, Or.inl h⟩
    have hA : ¬ c0.opcode / 16 % 16 = 10 := fun h => hE ⟨hg, Or.inr h⟩
    rw [execute_group_E rand c0 hg, execute_group_E rand _ hg']
    simp only [if_neg h9, if_neg hA]
    rfl
  · have hnA : ¬ c0.opcode % 256 = 0x0A := fun h => hF ⟨hg, h⟩
    rw [execute_group_F rand c0 hg, execute_group_F rand _ hg']
    simp only [if_neg hnA]
    by_cases k1 : c0.opcode % 256 = 0x07
    · simp only [k1]
      rfl
    by_cases k3 : c0.opcode % 256 = 0x15
    · simp only [k3]
      rfl
    by_cases k4 : c0.opcode % 256 = 0x18
    · simp only [k4]
      rfl
    by_cases k5 : c0.opcode % 256 = 0x1E
    · simp only [k5]
      rfl
    by_cases k6 : c0.opcode % 256 = 0x29
    · simp only [k6]
      rfl
    by_cases k7 : c0.opcode % 256 = 0x33
    · simp only [k7]
      simp
    by_cases k8 : c0.opcode % 256 = 0x55
    · simp only [k8]
      simp
      cases store_registers c0.V c0.idx (c0.opcode / 256 % 16) c0.memory <;> rfl
    by_cases k9 : c0.opcode % 256 = 0x65
    · simp only [k9]
      simp
      cases load_registers c0.memory c0.idx (c0.opcode / 256 % 16) c0.V <;> rfl
    simp only [if_neg k1, if_neg k3, if_neg k4, if_neg k5, if_neg k6, if_neg k7, if_neg k8,
      if_neg k9]
    rfl

/-! ## Keypad and run mode -/

/-- C21: a step that makes no out-of-bounds access leaves the keypad (all
sixteen entries) and the run mode as they were, so QUIT stays QUIT;
`update_timers` leaves both as they were; and unless the instruction is a key
skip of group E (Y nibble 9 or A) or the key wait FX0A, the step does not
read the keypad: run from a state with any other keypad it gives the same
result. -/
theorem keypad_and_run_mode_read_only (rand : Nat) (c c' : chip8_t) (hi lo : Nat)
    (hhi256 : hi < 256) (hlo256 : lo < 256)
    (hhi : c.memory c.pc = hi) (hlo : c.memory (c.pc + 1) = lo)
    (hstep : emulate_cycle rand c = some c') :
    c'.keypad = c.keypad ∧ c'.state = c.state ∧
    (update_timers c).keypad = c.keypad ∧ (update_timers c).state = c.state ∧
    (¬ (hi / 16 = 0xE ∧ (lo / 16 = 9 ∨ lo / 16 = 0xA)) → ¬ (hi / 16 = 0xF ∧ lo = 0x0A) →
      ∀ k, emulate_cycle rand { c with keypad := k } = some { c' with keypad := k }) := by
  have hpc : c.pc + 1 < MEMORY_SIZE := by
    by_contra hn
    unfold emulate_cycle at hstep
    rw [if_neg hn] at hstep
    cases hstep
  rw [emulate_cycle_fetch rand c hi lo hpc hhi hlo hhi256 hlo256] at hstep
  obtain ⟨hk, hs⟩ := execute_keypad_state rand _ c' hstep
  have ht : (update_timers c).keypad = c.keypad ∧ (update_timers c).state = c.state := by
    unfold update_timers
    by_cases hd : c.delay_timer > 0 <;> by_cases hsnd : c.sound_timer > 0 <;>
      simp [hd, hsnd]
  refine ⟨hk, hs, ht.1, ht.2, ?_⟩
  intro hE hF k
  rw [emulate_cycle_fetch rand { c with keypad := k } hi lo hpc hhi hlo hhi256 hlo256]
  have hg : (256 * hi + lo) / 4096 % 16 = hi / 16 := by omega
  have hY : (256 * hi + lo) / 16 % 16 = lo / 16 := by omega
  have hNN : (256 * hi + lo) % 256 = lo := by omega
  have hirr := execute_keypad_irrelevant rand
    { c with opcode := 256 * hi + lo, pc := c.pc + 2 } k
    (by simp only [hg, hY]; exact hE) (by simp only [hg, hNN]; exact hF)
  rw [hstep] at hirr
  exact hirr

/-- C21 on `E19E` run in mode QUIT with key 5 pressed (the step reads the
keypad): the mode is still QUIT and key 5 still pressed, after the step and
after `update_timers`; and on `8124`, which does not read the keypad, the
same step results from a state with every key pressed. -/
theorem keypad_and_run_mode_read_only_witness :
    (∃ c', emulate_cycle 0 quit_demo = some c' ∧ c'.state = state_t.QUIT ∧
      c'.keypad 5 = true ∧ c'.keypad 6 = false ∧
      (update_timers quit_demo).state = state_t.QUIT ∧
      (update_timers quit_demo).keypad 5 = true) ∧
    (∃ c', emulate_cycle 0 add_demo = some c' ∧
      emulate_cycle 0 { add_demo with keypad := fun _ => true } =
        some { c' with keypad := fun _ => true }) := by
  have h1 := keypad_and_run_mode_read_only 0 quit_demo _ 0xE1 0x9E (by decide) (by decide)
    rfl rfl rfl
  have h2 := keypad_and_run_mode_read_only 0 add_demo _ 0x81 0x24 (by decide) (by decide)
    rfl rfl rfl
  refine ⟨⟨_, rfl, h1.2.1, ?_, ?_, h1.2.2.2.1, ?_⟩, ⟨_, rfl, ?_⟩⟩
  · rw [h1.1]
    rfl
  · rw [h1.1]
    rfl
  · rw [h1.2.2.1]
    rfl
  · exact h2.2.2.2.2 (by decide) (by decide) (fun _ => true)

/-! ## The flag register -/

/-- The keypad scan of `FX0A` writes no register but V[X]. -/
theorem scan_keypad_other (keypad : Nat → Bool) (X : Nat) (V : Nat → Nat) (r : Nat)
    (hr : r ≠ X) : (scan_keypad keypad X V).1 r = V r := by
  have hloop : ∀ (l : List Nat) (st : (Nat → Nat) × Bool),
      (l.foldl (fun st i =>
        if keypad i = true then (store st.1 X (keypad i).toNat, true) else st) st).1 r =
        st.1 r := by
    intro l
    induction l with
    | nil => intro st; rfl
    | cons x xs ih =>
      intro st
      rw [List.foldl_cons, ih]
      by_cases hx : keypad x = true
      · rw [if_pos hx]
        exact store_other _ _ _ _ hr
      · rw [if_neg hx]
  exact hloop _ _

/-- The load loop over `0 .. n-1`, when it is defined: the registers written
and the frame. -/
theorem load_loop_result (memory : Nat → Nat) (idx : Nat) (V : Nat → Nat) (n : Nat)
    (v : Nat → Nat)
    (h : (List.range n).foldlM
        (fun v i => if idx + i < MEMORY_SIZE then some (store v i (memory (idx + i))) else none)
        V = some v) :
    (∀ i, i < n → v i = memory (idx + i)) ∧ (∀ r, n ≤ r → v r = V r) := by
  induction n generalizing v with
  | zero =>
    have e : V = v := Option.some.inj h
    subst e
    exact ⟨fun i hi => absurd hi (Nat.not_lt_zero i), fun _ _ => rfl⟩
  | succ n ih =>
    rw [List.range_succ, List.foldlM_append] at h
    cases hrun : (List.range n).foldlM
        (fun v i => if idx + i < MEMORY_SIZE then some (store v i (memory (idx + i))) else none)
        V with
    | none =>
      rw [hrun] at h
      cases h
    | some v1 =>
      rw [hrun] at h
      obtain ⟨hw, hf⟩ := ih v1 hrun
      by_cases hin : idx + n < MEMORY_SIZE
      · simp only [Option.bind_eq_bind, Option.some_bind, List.foldlM_cons, List.foldlM_nil,
          if_pos hin] at h
        have e : store v1 n (memory (idx + n)) = v := Option.some.inj h
        subst e
        constructor
        · intro i hi
          by_cases hn : i = n
          · rw [hn, store_same]
          · rw [store_other _ _ _ _ hn]
            exact hw i (by omega)
        · intro r hr
          rw [store_other _ _ _ _ (by omega)]
          exact hf r (by omega)
      · simp only [Option.bind_eq_bind, Option.some_bind, List.foldlM_cons, List.foldlM_nil,
          if_neg hin] at h
        cases h

/-- Outside 8XY4 .. 8XY7, 8XYE and DXYN, a defined step of the dispatch whose
X field is not 0xF leaves V[0xF] as it was. -/
theorem execute_flag (rand : Nat) (c0 c' : chip8_t) (h : execute rand c0 = some c')
    (hX : c0.opcode / 256 % 16 ≠ 0xF)
    (h8 : ¬ (c0.opcode / 4096 % 16 = 8 ∧
      (c0.opcode % 16 = 4 ∨ c0.opcode % 16 = 5 ∨ c0.opcode % 16 = 6 ∨ c0.opcode % 16 = 7 ∨
        c0.opcode % 16 = 14)))
    (hD : c0.opcode / 4096 % 16 ≠ 13) :
    c'.V 0xF = c0.V 0xF := by
  have hF : (0xF : Nat) ≠ c0.opcode / 256 % 16 := Ne.symm hX
  obtain ⟨g, hg⟩ : ∃ g, c0.opcode / 4096 % 16 = g := ⟨_, rfl⟩
  have hg16 : g < 16 := by omega
  interval_cases g
  · rw [execute_group_0 rand c0 hg] at h
    split_ifs at h <;> cases h <;> rfl
  · rw [execute_group_1 rand c0 hg] at h
    cases h
    rfl
  · rw [execute_group_2 rand c0 hg] at h
    split_ifs at h
    cases h
    rfl
  · rw [execute_group_3 rand c0 hg] at h
    split_ifs at h <;> cases h <;> rfl
  · rw [execute_group_4 rand c0 hg] at h
    split_ifs at h <;> cases h <;> rfl
  · rw [execute_group_5 rand c0 hg] at h
    split_ifs at h <;> cases h <;> rfl
  · rw [execute_group_6 rand c0 hg] at h
    cases h
    exact store_other _ _ _ _ hF
  · rw [execute_group_7 rand c0 hg] at h
    cases h
    exact store_other _ _ _ _ hF
  · rw [execute_group_8_eq rand c0 hg] at h
    have n4 : ¬ c0.opcode % 16 = 4 := fun k => h8 ⟨hg, Or.inl k⟩
    have n5 : ¬ (c0.opcode % 16 = 5 ∨ c0.opcode % 16 = 6 ∨ c0.opcode % 16 = 7 ∨
        c0.opcode % 16 = 14) := fun k => h8 ⟨hg, Or.inr k⟩
    rw [if_neg n4, if_neg n5] at h
    split_ifs at h <;> cases h <;> first | rfl | exact store_other _ _ _ _ hF
  · rw [execute_group_9 rand c0 hg] at h
    split_ifs at h <;> cases h <;> rfl
  · rw [execute_group_A rand c0 hg] at h
    cases h
    rfl
  · rw [execute_group_B rand c0 hg] at h
    cases h
    rfl
  · rw [execute_group_C rand c0 hg] at h
    cases h
    exact store_other _ _ _ _ hF
  · exact absurd hg hD
  · rw [execute_group_E rand c0 hg] at h
    split_ifs at h <;> cases h <;> rfl
  · rw [execute_group_F rand c0 hg] at h
    by_cases k1 : c0.opcode % 256 = 0x07
    · simp only [k1] at h
      simp at h
      subst h
      exact store_other _ _ _ _ hF
    by_cases k2 : c0.opcode % 256 = 0x0A
    · simp only [k2] at h
      simp at h
      by_cases hk : (scan_keypad c0.keypad (c0.opcode / 256 % 16) c0.V).2 = true
      · simp only [hk] at h
        simp at h
        subst h
        exact scan_keypad_other _ _ _ _ hF
      · simp only [hk] at h
        simp at h
        subst h
        exact scan_keypad_other _ _ _ _ hF
    by_cases k3 : c0.opcode % 256 = 0x15
    · simp only [k3] at h
      simp at h
      subst h
      rfl
    by_cases k4 : c0.opcode % 256 = 0x18
    · simp only [k4] at h
      simp at h
      subst h
      rfl
    by_cases k5 : c0.opcode % 256 = 0x1E
    · simp only [k5] at h
      simp at h
      subst h
      rfl
    by_cases k6 : c0.opcode % 256 = 0x29
    · simp only [k6] at h
      simp at h
      subst h
      rfl
    by_cases k7 : c0.opcode % 256 = 0x33
    · simp only [k7] at h
      simp at h
      obtain ⟨_, h⟩ := h
      subst h
      rfl
    by_cases k8 : c0.opcode % 256 = 0x55
    · simp only [k8] at h
      simp at h
      split at h <;> cases h
      rfl
    by_cases k9 : c0.opcode % 256 = 0x65
    · simp only [k9] at h
      simp at h
      cases hl : load_registers c0.memory c0.idx (c0.opcode / 256 % 16) c0.V with
      | none =>
        rw [hl] at h
        cases h
      | some v =>
        rw [hl] at h
        simp at h
        subst h
        have hX15 : c0.opcode / 256 % 16 + 1 ≤ 0xF := by omega
        exact (load_loop_result c0.memory c0.idx c0.V _ v hl).2 0xF hX15
    simp [k1, k2, k3, k4, k5, k6, k7, k8, k9] at h
    subst h
    rfl

/-- C22: for an instruction word that is not 8XY4, 8XY5, 8XY6, 8XY7, 8XYE or
DXYN and whose X field is not 0xF, a step that makes no out-of-bounds access
leaves V[0xF] as it was.  In particular 7XNN leaves V[X] = (V[X] + NN) mod 256,
8XY1 / 8XY2 / 8XY3 leave V[X] = V[X] or / and / xor V[Y], FX1E leaves
idx = (idx + V[X]) mod 65536 and FX65 leaves V[i] = memory[idx + i] for
i ≤ X, each without touching V[0xF]. -/
theorem flag_register_frame (rand : Nat) (c c' : chip8_t) (hi lo : Nat)
    (hhi256 : hi < 256) (hlo256 : lo < 256)
    (hhi : c.memory c.pc = hi) (hlo : c.memory (c.pc + 1) = lo)
    (hX : hi % 16 ≠ 0xF)
    (h8 : ¬ (hi / 16 = 8 ∧
      (lo % 16 = 4 ∨ lo % 16 = 5 ∨ lo % 16 = 6 ∨ lo % 16 = 7 ∨ lo % 16 = 0xE)))
    (hD : hi / 16 ≠ 0xD)
    (hstep : emulate_cycle rand c = some c') :
    c'.V 0xF = c.V 0xF ∧
    (hi / 16 = 7 → c'.V (hi % 16) = (c.V (hi % 16) + lo) % 256) ∧
    (hi / 16 = 8 → lo % 16 = 1 → c'.V (hi % 16) = c.V (hi % 16) ||| c.V (lo / 16)) ∧
    (hi / 16 = 8 → lo % 16 = 2 → c'.V (hi % 16) = c.V (hi % 16) &&& c.V (lo / 16)) ∧
    (hi / 16 = 8 → lo % 16 = 3 → c'.V (hi % 16) = c.V (hi % 16) ^^^ c.V (lo / 16)) ∧
    (hi / 16 = 0xF → lo = 0x1E → c'.idx = (c.idx + c.V (hi % 16)) % 65536) ∧
    (hi / 16 = 0xF → lo = 0x65 → ∀ i, i ≤ hi % 16 → c'.V i = c.memory (c.idx + i)) := by
  have hpc : c.pc + 1 < MEMORY_SIZE := by
    by_contra hn
    unfold emulate_cycle at hstep
    rw [if_neg hn] at hstep
    cases hstep
  rw [emulate_cycle_fetch rand c hi lo hpc hhi hlo hhi256 hlo256] at hstep
  have hg : (256 * hi + lo) / 4096 % 16 = hi / 16 := by omega
  have hXf : (256 * hi + lo) / 256 % 16 = hi % 16 := by omega
  have hYf : (256 * hi + lo) / 16 % 16 = lo / 16 := by omega
  have hN : (256 * hi + lo) % 16 = lo % 16 := by omega
  have hNN : (256 * hi + lo) % 256 = lo := by omega
  refine ⟨?_, ?_, ?_, ?_, ?_, ?_, ?_⟩
  · exact execute_flag rand { c with opcode := 256 * hi + lo, pc := c.pc + 2 } c' hstep
      (by show (256 * hi + lo) / 256 % 16 ≠ 0xF; rw [hXf]; exact hX)
      (by
        show ¬ ((256 * hi + lo) / 4096 % 16 = 8 ∧
          ((256 * hi + lo) % 16 = 4 ∨ (256 * hi + lo) % 16 = 5 ∨ (256 * hi + lo) % 16 = 6 ∨
            (256 * hi + lo) % 16 = 7 ∨ (256 * hi + lo) % 16 = 14))
        rw [hg, hN]
        exact h8)
      (by show (256 * hi + lo) / 4096 % 16 ≠ 13; rw [hg]; exact hD)
  · intro h7
    rw [execute_group_7 rand _ (by simp only [hg]; exact h7)] at hstep
    cases hstep
    simp only [hXf, hNN, store_same]
  · intro hg8 h1
    rw [execute_group_8_eq rand _ (by simp only [hg]; exact hg8)] at hstep
    simp only [hN, h1, hXf, hYf] at hstep
    simp at hstep
    subst hstep
    exact store_same _ _ _
  · intro hg8 h2
    rw [execute_group_8_eq rand _ (by simp only [hg]; exact hg8)] at hstep
    simp only [hN, h2, hXf, hYf] at hstep
    simp at hstep
    subst hstep
    exact store_same _ _ _
  · intro hg8 h3
    rw [execute_group_8_eq rand _ (by simp only [hg]; exact hg8)] at hstep
    simp only [hN, h3, hXf, hYf] at hstep
    simp at hstep
    subst hstep
    exact store_same _ _ _
  · intro hgF h1E
    subst h1E
    rw [execute_group_F rand _ (by simp only [hg]; exact hgF)] at hstep
    simp only [hNN, hXf] at hstep
    simp at hstep
    subst hstep
    rfl
  · intro hgF h65 i hle
    subst h65
    rw [execute_group_F rand _ (by simp only [hg]; exact hgF)] at hstep
    simp only [hNN, hXf] at hstep
    simp at hstep
    cases hl : load_registers c.memory c.idx (hi % 16) c.V with
    | none =>
      rw [hl] at hstep
      cases hstep
    | some v =>
      rw [hl] at hstep
      simp at hstep
      subst hstep
      exact (load_loop_result c.memory c.idx c.V _ v hl).1 i (by omega)

/-- C22 on `7105` with V1 = 0xFE and V[0xF] = 9: the sum wraps to 0x03 and
V[0xF] is still 9. -/
theorem flag_register_frame_witness :
    ∃ c', emulate_cycle 0 addi_demo = some c' ∧ c'.V 1 = 0x03 ∧ c'.V 0xF = 9 := by
  have h := flag_register_frame 0 addi_demo _ 0x71 0x05 (by decide) (by decide) rfl rfl
    (by decide) (by decide) (by decide) rfl
  exact ⟨_, rfl, h.2.1 rfl, h.1⟩

/-! ## ADD with the flag register as an operand -/

/-- C23: at 8XY4 with Y = 0xF (X = 1, V[1] = 3, V[0xF] = 5) the step leaves
V[1] = 3, not (3 + 5) mod 256 = 8: the flag is written first and the addition
then reads the flag, 0, in place of the old V[0xF].  At 8XY4 with X = 0xF
(V[0xF] = 5, V[1] = 3) it leaves V[0xF] = 3, again not 8. -/
theorem add_8XY4_reads_written_flag :
    (add_alias_demo.V 1 = 3 ∧ add_alias_demo.V 0xF = 5 ∧
      ∃ c', emulate_cycle 0 add_alias_demo = some c' ∧ c'.V 1 = 3 ∧
        c'.V 1 ≠ (add_alias_demo.V 1 + add_alias_demo.V 0xF) % 256) ∧
    (add_flag_demo.V 0xF = 5 ∧ add_flag_demo.V 1 = 3 ∧
      ∃ c', emulate_cycle 0 add_flag_demo = some c' ∧ c'.V 0xF = 3 ∧
        c'.V 0xF ≠ (add_flag_demo.V 0xF + add_flag_demo.V 1) % 256) :=
  ⟨⟨rfl, rfl, _, rfl, rfl, by decide⟩, ⟨rfl, rfl, _, rfl, rfl, by decide⟩⟩

end Chip8
